import Mathlib

/-!
Verification development for the ROML codec (a bidirectional JSON <-> "mangled
text" converter).  The definitions below are a shallow embedding of the
TypeScript sources:

* `RomlConverter` (the encoder, `jsonToRoml` and helpers),
* `RomlLexer` (the quote-aware line lexer, `tokenize` and helpers),
* `RomlParser` (token walk, prime validation, AST projection),
* `primeUtils` (`isPrime`, `containsPrime`, `objectContainsPrimes`).

Modelling conventions, fixed once for the whole file:

* JSON numbers are modelled as integers (`Int`).  All concrete numeric data in
  the repository's codec tests are integers; the primality machinery, whose
  contract also speaks about non-integers, is modelled over `ℚ` so that the
  "false for non-integers / negatives" clauses remain statable.  (`ℚ` plays the
  role of the finite JS doubles relevant here.)
* JS `undefined` is a distinguished value `vUndef`; an absent token field is
  `Option.none`.  The parser's `=== undefined` tests identify the two, exactly
  as JavaScript does.
* JS `boolean[]` arrays are modelled as functions `Nat → Bool` with pointwise
  update; JS loops become fuel-indexed structural recursion (the fuel supplied
  at every call site strictly dominates the number of iterations the JS loop
  performs, which the correctness lemmas make explicit where it matters).
* The one JS exception reachable inside the lexer (a `TypeError` raised by the
  mis-anchored pipe-array regex, see `parseSpecialCases`) is modelled with
  `Except`; the catch-all in `RomlFile.parse` becomes the `Except.error` branch
  of `romlDecode`.
-/

namespace Roml

mutual
/-- The JSON-equivalent value model (`Null | Undefined | Bool | Number | Str |
List | Map`).  Mutual with its two list forms so that all recursion over values
is plain structural recursion. -/
inductive Value where
  | vNull
  | vUndef
  | vBool (b : Bool)
  | vNum (n : Int)
  | vStr (s : String)
  | vArr (items : ValueList)
  | vObj (entries : EntryList)
deriving Repr, DecidableEq

/-- An ordered JSON array, as a bespoke list so recursion stays structural. -/
inductive ValueList where
  | nil
  | cons (head : Value) (tail : ValueList)
deriving Repr, DecidableEq

/-- Ordered key/value entries of a JSON map (insertion order preserved). -/
inductive EntryList where
  | nil
  | cons (key : String) (val : Value) (tail : EntryList)
deriving Repr, DecidableEq
end

namespace ValueList

def ofList : List Value → ValueList
  | [] => .nil
  | x :: xs => .cons x (ofList xs)

def toList : ValueList → List Value
  | .nil => []
  | .cons x xs => x :: toList xs

def length : ValueList → Nat
  | .nil => 0
  | .cons _ xs => xs.length + 1

end ValueList

namespace EntryList

def ofList : List (String × Value) → EntryList
  | [] => .nil
  | (k, v) :: es => .cons k v (ofList es)

def toList : EntryList → List (String × Value)
  | .nil => []
  | .cons k v es => (k, v) :: toList es

def keys : EntryList → List String
  | .nil => []
  | .cons k _ es => k :: keys es

end EntryList

/-! ## JavaScript string primitives

The lexer and encoder manipulate strings character by character.  We mirror the
JS operations over `List Char` (`Chars`); `String` is used at the API boundary.
JS strings are UTF-16; every character occurring in this development is in the
Basic Multilingual Plane, where one `Char` is one UTF-16 code unit. -/

abbrev Chars := List Char

def chars (s : String) : Chars := s.data

def ofChars (cs : Chars) : String := String.mk cs

/-- JS `String.prototype.trim` (ASCII whitespace suffices here). -/
def jsTrim (cs : Chars) : Chars :=
  ((cs.dropWhile Char.isWhitespace).reverse.dropWhile Char.isWhitespace).reverse

/-- JS `String.prototype.trimStart`. -/
def jsTrimStart (cs : Chars) : Chars := cs.dropWhile Char.isWhitespace

/-- Is `pat` a prefix of `cs`? (JS `startsWith`). -/
def startsWithC : Chars → Chars → Bool
  | [], _ => true
  | _ :: _, [] => false
  | p :: ps, c :: cs => p == c && startsWithC ps cs

/-- JS `endsWith`. -/
def endsWithC (pat cs : Chars) : Bool := startsWithC pat.reverse cs.reverse

/-- JS `includes` (substring search). -/
def containsC (pat : Chars) : Chars → Bool
  | [] => startsWithC pat []
  | c :: cs => startsWithC pat (c :: cs) || containsC pat cs

/-- Index of the first occurrence of `pat` (JS `indexOf`), if any. -/
def indexOfC (pat : Chars) : Chars → Option Nat
  | [] => if startsWithC pat [] then some 0 else none
  | c :: cs =>
    if startsWithC pat (c :: cs) then some 0
    else match indexOfC pat cs with
      | some i => some (i + 1)
      | none => none

/-- JS `split` on a non-empty string separator. -/
def splitOnC (sep : Chars) (cs : Chars) : List Chars :=
  go cs.length [] cs
where
  go : Nat → Chars → Chars → List Chars
    | _, acc, [] => [acc.reverse]
    | 0, acc, rest => [acc.reverse ++ rest]
    | fuel + 1, acc, c :: cs =>
      if startsWithC sep (c :: cs) && sep.length != 0 then
        acc.reverse :: go fuel [] (cs.drop (sep.length - 1))
      else
        go fuel (c :: acc) cs

/-- One left-to-right pass replacing every (non-overlapping) occurrence of
`pat` by `rep`: the semantics of JS `replace` with a global regex of a literal
pattern. -/
def replaceAllC (pat rep : Chars) (cs : Chars) : Chars :=
  go cs.length cs
where
  go : Nat → Chars → Chars
    | _, [] => []
    | 0, rest => rest
    | fuel + 1, c :: cs =>
      if startsWithC pat (c :: cs) && pat.length != 0 then
        rep ++ go fuel (cs.drop (pat.length - 1))
      else
        c :: go fuel cs

/-! ## Prime subsystem (`src/utils/primeUtils.ts`)

`boolean[]` arrays are modelled as `Nat → Bool` with pointwise update.  The
process-lifetime lazy sieve cache is modelled as the pure constant
`sieveCache`: the JS cache is write-once and read-only thereafter, so the pure
constant is observationally identical. -/

/-- `arr[j] = b` on the function model of a JS array. -/
def arraySet (s : Nat → Bool) (j : Nat) (b : Bool) : Nat → Bool :=
  fun k => if k = j then b else s k

/-- Inner loop of `generateSieve`: `for (let j = i*i; j <= limit; j += i) sieve[j] = false`.
Fuel strictly dominates the iteration count whenever `limit + 1 ≤ j + fuel`. -/
def markMultiples (i limit : Nat) : Nat → Nat → (Nat → Bool) → (Nat → Bool)
  | 0, _, s => s
  | fuel + 1, j, s =>
    if j ≤ limit then markMultiples i limit fuel (j + i) (arraySet s j false) else s

/-- Outer loop of `generateSieve`: `for (let i = 2; i*i <= limit; i++) if (sieve[i]) ...`. -/
def sieveLoop (limit : Nat) : Nat → Nat → (Nat → Bool) → (Nat → Bool)
  | 0, _, s => s
  | fuel + 1, i, s =>
    if i * i ≤ limit then
      sieveLoop limit fuel (i + 1)
        (if s i then markMultiples i limit (limit + 1) (i * i) s else s)
    else s

/-- `generateSieve` from `primeUtils.ts`: all-`true` array of size `limit+1`,
entries `0` and `1` cleared, then the two nested marking loops. -/
def generateSieve (limit : Nat) : Nat → Bool :=
  sieveLoop limit (limit + 1) 2 (arraySet (arraySet (fun _ => true) 0 false) 1 false)

/-- `SIEVE_LIMIT = 10000`. -/
def SIEVE_LIMIT : Nat := 10000

/-- The lazily initialised process-wide sieve cache, as a pure constant. -/
def sieveCache : Nat → Bool := generateSieve SIEVE_LIMIT

/-- Loop of `isPrimeByTrialDivision`: `for (let i = 3; i*i <= num; i += 2)`. -/
def trialLoop (num : Nat) : Nat → Nat → Bool
  | 0, _ => true
  | fuel + 1, i =>
    if i * i ≤ num then
      if num % i = 0 then false else trialLoop num fuel (i + 2)
    else true

/-- `isPrimeByTrialDivision` from `primeUtils.ts` (used for `num > SIEVE_LIMIT`;
defined, as in the source, for any number). -/
def isPrimeByTrialDivision (num : Int) : Bool :=
  if num < 2 then false
  else if num = 2 then true
  else if num % 2 = 0 then false
  else trialLoop num.toNat num.toNat 3

/-- `isPrime` from `primeUtils.ts`.  `!Number.isInteger(num)` is `den ≠ 1` on
the rational model. -/
def isPrime (num : ℚ) : Bool :=
  if num.den ≠ 1 ∨ num < 0 then false
  else if num.num ≤ (SIEVE_LIMIT : Int) then sieveCache num.num.toNat
  else isPrimeByTrialDivision num.num

mutual
/-- `containsPrime` from `primeUtils.ts`: recursively true iff some contained
number is prime (strings, booleans, null, undefined never count). -/
def containsPrime : Value → Bool
  | .vNum n => isPrime (n : ℚ)
  | .vArr xs => containsPrimeList xs
  | .vObj es => containsPrimeEntries es
  | _ => false

def containsPrimeList : ValueList → Bool
  | .nil => false
  | .cons x xs => containsPrime x || containsPrimeList xs

def containsPrimeEntries : EntryList → Bool
  | .nil => false
  | .cons _ v es => containsPrime v || containsPrimeEntries es
end

/-- `objectContainsPrimes` from `primeUtils.ts`. -/
def objectContainsPrimes (obj : EntryList) : Bool := containsPrimeEntries obj

/-- `RomlParser.isPrime`: trial division over the `6k ± 1` candidates. -/
def parserPrimeLoop (n : Nat) : Nat → Nat → Bool
  | 0, _ => true
  | fuel + 1, i =>
    if i * i ≤ n then
      if n % i = 0 ∨ n % (i + 2) = 0 then false else parserPrimeLoop n fuel (i + 6)
    else true

/-- `RomlParser.isPrime` from `RomlParser.ts` (decoder-side primality test). -/
def parserIsPrime (n : ℚ) : Bool :=
  if n.den ≠ 1 ∨ n.num ≤ 1 then false
  else if n.num ≤ 3 then true
  else if n.num % 2 = 0 ∨ n.num % 3 = 0 then false
  else parserPrimeLoop n.num.toNat n.num.toNat 5

/-! ### Kernel-friendly reference primality test

`isPrime` hides a 10000-entry sieve, which the kernel cannot feasibly evaluate
inside every concrete example.  `simpleIsPrime` is an all-divisor trial test;
the bridge lemmas below prove it extensionally equal to the source functions,
so concrete evaluations can use it. -/

def simpleAux (n : Nat) : Nat → Nat → Bool
  | 0, _ => true
  | fuel + 1, d =>
    if d * d ≤ n then
      if n % d = 0 then false else simpleAux n fuel (d + 1)
    else true

def simpleIsPrimeNat (n : Nat) : Bool :=
  if n ≤ 1 then false else simpleAux n n 2

def simpleIsPrimeInt (n : Int) : Bool :=
  if n ≤ 1 then false else simpleIsPrimeNat n.toNat

mutual
/-- `containsPrime` with the sieve replaced by the kernel-friendly test. -/
def simpleContainsPrime : Value → Bool
  | .vNum n => simpleIsPrimeInt n
  | .vArr xs => simpleContainsPrimeList xs
  | .vObj es => simpleContainsPrimeEntries es
  | _ => false

def simpleContainsPrimeList : ValueList → Bool
  | .nil => false
  | .cons x xs => simpleContainsPrime x || simpleContainsPrimeList xs

def simpleContainsPrimeEntries : EntryList → Bool
  | .nil => false
  | .cons _ v es => simpleContainsPrime v || simpleContainsPrimeEntries es
end

end Roml

namespace Roml

/-! ## Encoder (`RomlConverter`, `src/lexer/RomlLexer.ts` lines 382-1105)

The encoder is parameterised by the prime test `cp : Value → Bool`; the source
calls `containsPrime` directly and `jsonToRoml` below instantiates `cp` with
it.  (The parameter exists so that, after proving `containsPrime` extensionally
equal to the sieve-free `simpleContainsPrime`, concrete outputs can be computed
by the kernel without running the 10000-entry sieve.) -/

mutual
/-- JS `String(value)` on the value model (for integers, booleans, strings;
arrays stringify as comma-joined elements with null/undefined empty). -/
def jsToString : Value → String
  | .vNull => "null"
  | .vUndef => "undefined"
  | .vBool true => "true"
  | .vBool false => "false"
  | .vNum n => toString n
  | .vStr s => s
  | .vArr xs => jsToStringItems xs
  | .vObj _ => "[object Object]"

def jsToStringItems : ValueList → String
  | .nil => ""
  | .cons x .nil =>
    (match x with
     | .vNull => ""
     | .vUndef => ""
     | _ => jsToString x)
  | .cons x (.cons y ys) =>
    (match x with
     | .vNull => ""
     | .vUndef => ""
     | _ => jsToString x) ++ "," ++ jsToStringItems (.cons y ys)
end

/-- Numeric value of a digit string. -/
def digitsVal (cs : Chars) : Nat :=
  cs.foldl (fun acc c => acc * 10 + (c.toNat - 48)) 0

/-- Digit-string parse with JS canonicity (`String(parseFloat(s)) === s`) for
integer values: an optional minus, no leading zeros, no `-0`.  Strings that
denote non-integral doubles are deliberately outside the integer value model. -/
def canonicalInt : Chars → Option Int
  | [] => none
  | '-' :: ds =>
    match canonicalNat ds with
    | some 0 => none
    | some n => some (-(n : Int))
    | none => none
  | ds =>
    match canonicalNat ds with
    | some n => some (n : Int)
    | none => none
where
  canonicalNat : Chars → Option Nat
    | [] => none
    | ['0'] => some 0
    | d :: ds =>
      if d.isDigit && d != '0' && ds.all Char.isDigit then
        some (digitsVal (d :: ds))
      else none

/-- `RomlConverter.isAmbiguousString` (wrapper-era version, lines 509-533): a
string that would be mis-decoded unless quoted. -/
def isAmbiguousString (s : String) : Bool :=
  let cs := chars s
  (canonicalInt cs).isSome
  || s == "true" || s == "false"
  || s == "null"
  || s == "__NULL__" || s == "__EMPTY__" || s == "__UNDEFINED__"
  || s == "yes" || s == "no"
  || (jsTrim cs).isEmpty
  || containsC ['\n'] cs || containsC ['\r'] cs

/-- The character class `ROML_SYNTAX_CHARS = /[=:~#%$^+&<>|[\]{}/@!]/`. -/
def romlSyntaxChar (c : Char) : Bool :=
  c == '=' || c == ':' || c == '~' || c == '#' || c == '%' || c == '$' ||
  c == '^' || c == '+' || c == '&' || c == '<' || c == '>' || c == '|' ||
  c == '[' || c == ']' || c == '\x7b' || c == '\x7d' || c == '/' || c == '@' || c == '!'

/-- The fixed `ambiguousKeyNames` list from `needsQuotedKey`. -/
def ambiguousKeyNames : List String :=
  ["special", "url", "E", "integer", "real", "true", "false", "null",
   "object", "array", "zero", "space", "quote", "backslash", "slash",
   "alpha", "ALPHA", "digit", "hex", "comment", "address", "compact"]

/-- `RomlConverter.needsQuotedKey` (lines 538-587). -/
def needsQuotedKey (key : String) : Bool :=
  let cs := chars key
  key == ""
  || cs.any romlSyntaxChar
  || (startsWithC ['['] cs && containsC [']'] cs)
  || containsC ['"'] cs
  || startsWithC ['#'] cs || startsWithC ['/', '/'] cs
  || containsC [' '] cs || containsC ['\t'] cs || containsC ['\n'] cs
  || ambiguousKeyNames.contains key

/-- `escapeForRoml`: backslashes first, then newline, carriage return, tab,
quote — each as one left-to-right global replacement (lines 399-406). -/
def escapeForRoml (s : String) : String :=
  ofChars <|
    replaceAllC ['"'] ['\\', '"'] <|
    replaceAllC ['\t'] ['\\', 't'] <|
    replaceAllC ['\r'] ['\\', 'r'] <|
    replaceAllC ['\n'] ['\\', 'n'] <|
    replaceAllC ['\\'] ['\\', '\\'] (chars s)

/-- `escapeStringValue` (lines 411-416). -/
def escapeStringValue : Value → String
  | .vStr s => escapeForRoml s
  | v => jsToString v

/-- `formatKeyName` (lines 421-426). -/
def formatKeyName (key : String) (needsQuoting : Bool) : String :=
  if needsQuoting then "\"" ++ escapeForRoml key ++ "\"" else key

/-- `LineFeatures` from `types.ts`. -/
structure LineFeatures where
  containsPrime : Bool
  hasLargeArray : Bool
  isNestedObject : Bool
  keyStartsWithVowel : Bool
  hasLongString : Bool
  isSpecialValue : Bool
  nestingDepth : Nat
  needsQuotes : Bool
  needsQuotedKey : Bool
deriving Repr, DecidableEq

/-- `ConversionContext` (`depth` and the shared line counter; `path` and
`parentKey` are write-only in the source and omitted). -/
structure Ctx where
  depth : Nat
  lineNumber : Nat
deriving Repr, DecidableEq

def isSyntheticWrapperKey (key : String) : Bool :=
  key == "_items" || key == "_value"

/-- `RomlConverter.analyzeLineFeatures` (lines 1071-1104). -/
def analyzeLineFeatures (cp : Value → Bool) (key : String) (v : Value) (ctx : Ctx) :
    LineFeatures :=
  let keyCs := chars key
  let keyStartsWithVowel :=
    match keyCs with
    | [] => false
    | c :: _ => c == 'a' || c == 'e' || c == 'i' || c == 'o' || c == 'u' ||
                c == 'A' || c == 'E' || c == 'I' || c == 'O' || c == 'U'
  let hasLongString := match v with | .vStr s => s.length > 10 | _ => false
  let isSpecialValue :=
    v == .vStr "__NULL__" || v == .vStr "__UNDEFINED__" || v == .vStr "__EMPTY__" ||
    v == .vNull || v == .vUndef || v == .vStr ""
  let isNestedObject := match v with | .vObj _ => true | _ => false
  let hasLargeArray := match v with | .vArr xs => xs.length > 5 | _ => false
  let isArrayItem := startsWithC ['['] keyCs && endsWithC [']'] keyCs
  let needsQuotes :=
    match v with
    | .vStr s => isAmbiguousString s && !(s == "" && isArrayItem)
    | _ => false
  { containsPrime := if isSyntheticWrapperKey key then false else cp v
    hasLargeArray := hasLargeArray
    isNestedObject := isNestedObject
    keyStartsWithVowel := keyStartsWithVowel
    hasLongString := hasLongString
    isSpecialValue := isSpecialValue
    nestingDepth := ctx.depth
    needsQuotes := needsQuotes
    needsQuotedKey := needsQuotedKey key }

/-- The sixteen key-value styles, plus the inline even-counter boolean
rendering (`key=yes`/`key=no`, which the source implements as an anonymous
closure rather than a named style). -/
inductive StyleChoice where
  | QUOTED | AMPERSAND | BRACKETS | PIPES | DOUBLE_COLON | FAKE_COMMENT
  | AT_SANDWICH | UNDERSCORE
  | EQUALS | COLON | TILDE | HASH | PERCENT | DOLLAR | CARET | PLUS
  | BOOL_EVEN
deriving Repr, DecidableEq

open StyleChoice in
/-- The odd-counter style family, in `Object.keys(SYNTAX_STYLES)` order. -/
def oddStyles : List StyleChoice :=
  [QUOTED, AMPERSAND, BRACKETS, PIPES, DOUBLE_COLON, FAKE_COMMENT, AT_SANDWICH, UNDERSCORE]

open StyleChoice in
/-- The even-counter style family, in `Object.keys(EVEN_LINE_STYLES)` order. -/
def evenStyles : List StyleChoice :=
  [EQUALS, COLON, TILDE, HASH, PERCENT, DOLLAR, CARET, PLUS]

/-- Render one key-value line in the given style (the `SYNTAX_STYLES` /
`EVEN_LINE_STYLES` templates, all routed through `createSyntaxStyle` except
`QUOTED` and the inline boolean closure). -/
def renderStyle (st : StyleChoice) (key : String) (v : Value) (lf : LineFeatures) : String :=
  let pfx := if lf.containsPrime then "!" else ""
  let fkey := formatKeyName key lf.needsQuotedKey
  let sv :=
    if lf.needsQuotes then "\"" ++ escapeStringValue v ++ "\"" else jsToString v
  let k := pfx ++ fkey
  match st with
  | .QUOTED => pfx ++ fkey ++ "=\"" ++ escapeStringValue v ++ "\""
  | .AMPERSAND => "&" ++ k ++ "&" ++ sv
  | .BRACKETS => k ++ "<" ++ sv ++ ">"
  | .PIPES => "||" ++ k ++ "||" ++ sv ++ "||"
  | .DOUBLE_COLON => "::" ++ k ++ "::" ++ sv ++ "::"
  | .FAKE_COMMENT => "//" ++ k ++ "//" ++ sv
  | .AT_SANDWICH => "@" ++ k ++ "@" ++ sv ++ "@"
  | .UNDERSCORE => "_" ++ k ++ "_" ++ sv ++ "_"
  | .EQUALS => k ++ "=" ++ sv
  | .COLON => k ++ ":" ++ sv
  | .TILDE => k ++ "~" ++ sv
  | .HASH => k ++ "#" ++ sv
  | .PERCENT => k ++ "%" ++ sv
  | .DOLLAR => k ++ "$" ++ sv
  | .CARET => k ++ "^" ++ sv
  | .PLUS => k ++ "+" ++ sv
  | .BOOL_EVEN => pfx ++ key ++ "=" ++ (if v == .vBool true then "yes" else "no")

def jsToLower (s : String) : String := ofChars ((chars s).map Char.toLower)

/-- `SEMANTIC_CATEGORIES` and `getSemanticStyle` (lines 484-491, 962-985). -/
def getSemanticStyle (key : String) : Option StyleChoice :=
  let lowerKey := jsToLower key
  if ["name", "first_name", "last_name", "email", "phone", "address", "username"].contains lowerKey then
    some .QUOTED
  else if ["active", "enabled", "valid", "working", "online", "disabled", "inactive"].contains lowerKey then
    some .BRACKETS
  else if ["tags", "items", "list", "array", "elements", "values", "data"].contains lowerKey then
    some .PIPES
  else if ["id", "uuid", "hash", "checksum", "token", "key", "secret"].contains lowerKey then
    some .AMPERSAND
  else if ["salary", "price", "cost", "amount", "total", "balance", "fee"].contains lowerKey then
    some .FAKE_COMMENT
  else if ["date", "time", "created", "updated", "timestamp", "expires"].contains lowerKey then
    some .AT_SANDWICH
  else none

/-- JS `ToInt32` (the effect of `& 0xffffffff` and of shifting). -/
def toInt32 (x : Int) : Int := (x + 2 ^ 31) % 2 ^ 32 - 2 ^ 31

/-- `RomlConverter.simpleHash` (lines 1001-1007):
`hash = ((hash << 5) - hash + charCode) & 0xffffffff`, then `Math.abs`. -/
def simpleHash (s : String) : Nat :=
  (go 0 (chars s)).natAbs
where
  go (h : Int) : Chars → Int
    | [] => h
    | c :: cs => go (toInt32 (toInt32 (h * 32) - h + (c.toNat : Int))) cs

/-- `RomlConverter.selectSyntax` (lines 878-960), returning the chosen style. -/
def selectStyle (key : String) (v : Value) (ctx : Ctx) (lf : LineFeatures) : StyleChoice :=
  let isEvenLine := ctx.lineNumber % 2 == 0
  let keyHash := simpleHash key
  let valueLength := (jsToString v).length
  match getSemanticStyle key, isEvenLine with
  | some st, false => st
  | _, _ =>
    match v with
    | .vBool _ => if isEvenLine then .BOOL_EVEN else .BRACKETS
    | .vNum _ => if isEvenLine then .COLON else .AMPERSAND
    | .vStr _ =>
      if isEvenLine then
        if lf.keyStartsWithVowel then .TILDE
        else if lf.hasLongString then .HASH
        else .EQUALS
      else
        if lf.keyStartsWithVowel then .QUOTED
        else if lf.hasLongString then .DOUBLE_COLON
        else .FAKE_COMMENT
    | _ =>
      if lf.isSpecialValue then
        if isEvenLine then .DOLLAR else .FAKE_COMMENT
      else
        let sel := (keyHash + lf.nestingDepth + valueLength) % 8
        if isEvenLine then evenStyles.getD sel .EQUALS else oddStyles.getD sel .QUOTED

/-- The four single-line array styles. -/
inductive ArrStyle where
  | PIPES | BRACKETS | JSON_STYLE | COLON_DELIM
deriving Repr, DecidableEq

/-- `RomlConverter.selectArrayStyle` (lines 987-999): `PIPES` for synthetic
wrapper keys, else `hash(key) mod 4`. -/
def selectArrayStyle (key : String) : ArrStyle :=
  if isSyntheticWrapperKey key then .PIPES
  else [ArrStyle.PIPES, ArrStyle.BRACKETS, ArrStyle.JSON_STYLE, ArrStyle.COLON_DELIM].getD
    (simpleHash key % 4) .PIPES

/-- `JSON.stringify` on a string (quoting and escaping; ASCII control chars
beyond the named escapes do not occur in this development's data). -/
def jsonStringifyStr (s : String) : String :=
  "\"" ++ ofChars ((chars s).flatMap fun c =>
    if c == '"' then ['\\', '"']
    else if c == '\\' then ['\\', '\\']
    else if c == '\n' then ['\\', 'n']
    else if c == '\r' then ['\\', 'r']
    else if c == '\t' then ['\\', 't']
    else [c]) ++ "\""

/-- Shallow complex-item test of `convertArray`:
`(typeof item === 'object' && item !== null) || Array.isArray(item)`. -/
def anyComplexItem : ValueList → Bool
  | .nil => false
  | .cons x xs =>
    (match x with | .vObj _ => true | .vArr _ => true | _ => false) || anyComplexItem xs

/-- Element rendering for `PIPES`/`COLON_DELIM` primitive arrays. -/
def renderPlainItem (item : Value) : String :=
  match item with
  | .vNull => "__NULL__"
  | .vStr "" => "__EMPTY__"
  | .vUndef => "__UNDEFINED__"
  | .vStr s => if isAmbiguousString s then "\"" ++ escapeStringValue (.vStr s) ++ "\"" else s
  | v => jsToString v

/-- Element rendering for `BRACKETS` primitive arrays. -/
def renderBracketItem (item : Value) : String :=
  match item with
  | .vNull => "<__NULL__>"
  | .vStr "" => "<__EMPTY__>"
  | .vUndef => "<__UNDEFINED__>"
  | .vStr s =>
    if isAmbiguousString s then "<\"" ++ escapeStringValue (.vStr s) ++ "\">"
    else "<" ++ s ++ ">"
  | v => "<" ++ jsToString v ++ ">"

/-- Element rendering for `JSON_STYLE` primitive arrays. -/
def renderJsonItem (item : Value) : String :=
  match item with
  | .vNull => "null"
  | .vStr "" => "\"\""
  | .vUndef => "undefined"
  | .vStr s => jsonStringifyStr s
  | v => jsToString v

def mapItems (f : Value → String) : ValueList → List String
  | .nil => []
  | .cons x xs => f x :: mapItems f xs

def dupIndent (depth : Nat) : String := String.mk (List.replicate (2 * depth) ' ')

mutual
/-- `RomlConverter.convertValue` (lines 623-681).  The `convertObject` and
`convertArray` bodies are inlined at their call sites (keeping the recursion
structural); the text produced is identical to the source's. -/
def convertValue (cp : Value → Bool) (key : String) (v : Value) (ctx : Ctx) :
    String × Nat :=
  let indent := dupIndent ctx.depth
  let lf := analyzeLineFeatures cp key v ctx
  match v with
  | .vNull =>
    (indent ++ renderStyle (selectStyle key (.vStr "__NULL__") ctx lf) key (.vStr "__NULL__") lf,
     ctx.lineNumber + 1)
  | .vUndef =>
    (indent ++ renderStyle (selectStyle key (.vStr "__UNDEFINED__") ctx lf) key (.vStr "__UNDEFINED__") lf,
     ctx.lineNumber + 1)
  | .vBool b =>
    (indent ++ renderStyle (selectStyle key (.vBool b) ctx lf) key (.vBool b) lf,
     ctx.lineNumber + 1)
  | .vNum n =>
    (indent ++ renderStyle (selectStyle key (.vNum n) ctx lf) key (.vNum n) lf,
     ctx.lineNumber + 1)
  | .vStr s =>
    (indent ++ renderStyle (selectStyle key (.vStr s) ctx lf) key (.vStr s) lf,
     ctx.lineNumber + 1)
  | .vArr xs =>
    -- convertArray (lines 683-822)
    let hasComplexItems := anyComplexItem xs
    let forceStructured := ctx.depth > 0
    let pfx := if lf.containsPrime then "!" else ""
    if hasComplexItems || forceStructured then
      let (itemLines, lnAfter) :=
        convertItems cp xs 0 (ctx.depth + 1) (ctx.lineNumber + 1)
      (indent ++ pfx ++ key ++ "[\n" ++ String.intercalate "\n" itemLines ++ "\n" ++ indent ++ "]",
       lnAfter + 1)
    else
      match selectArrayStyle key with
      | .PIPES =>
        (indent ++ pfx ++ key ++ "||" ++ String.intercalate "||" (mapItems renderPlainItem xs) ++ "||",
         ctx.lineNumber + 1)
      | .BRACKETS =>
        let items := String.join (mapItems renderBracketItem xs)
        let finalItems := if xs.length == 1 then items ++ "<>" else items
        (indent ++ pfx ++ key ++ finalItems, ctx.lineNumber + 1)
      | .JSON_STYLE =>
        (indent ++ pfx ++ key ++ "[" ++ String.intercalate "," (mapItems renderJsonItem xs) ++ "]",
         ctx.lineNumber + 1)
      | .COLON_DELIM =>
        (indent ++ pfx ++ key ++ ":" ++ String.intercalate ":" (mapItems renderPlainItem xs),
         ctx.lineNumber + 1)
  | .vObj es =>
    -- convertObject, keyed branch (lines 824-857); object keys get no prefix
    let (entryLines, lnAfter) := convertEntries cp es (ctx.depth + 1) (ctx.lineNumber + 1)
    (indent ++ key ++ "\x7b\n" ++ String.intercalate "\n" entryLines ++ "\n" ++ indent ++ "\x7d",
     lnAfter + 1)

/-- The entries loop shared by both `convertObject` branches. -/
def convertEntries (cp : Value → Bool) (es : EntryList) (depth ln : Nat) :
    List String × Nat :=
  match es with
  | .nil => ([], ln)
  | .cons k v rest =>
    let (s, ln1) := convertValue cp k v ⟨depth, ln⟩
    let (ss, ln2) := convertEntries cp rest depth ln1
    (s :: ss, ln2)

/-- The indexed item loop of structured `convertArray`; map items are rendered
through the keyed `convertObject` body (inlined), everything else through
`convertValue`. -/
def convertItems (cp : Value → Bool) : ValueList → Nat → Nat → Nat → List String × Nat
  | .nil, _, _, ln => ([], ln)
  | .cons (.vObj es) rest, idx, depth, ln =>
    let key := "[" ++ toString idx ++ "]"
    let (entryLines, lnAfter) := convertEntries cp es (depth + 1) (ln + 1)
    let s := dupIndent depth ++ key ++ "\x7b\n" ++ String.intercalate "\n" entryLines ++
      "\n" ++ dupIndent depth ++ "\x7d"
    let (ss, ln2) := convertItems cp rest (idx + 1) depth (lnAfter + 1)
    (s :: ss, ln2)
  | .cons item rest, idx, depth, ln =>
    let (s, ln1) := convertValue cp ("[" ++ toString idx ++ "]") item ⟨depth, ln⟩
    let (ss, ln2) := convertItems cp rest (idx + 1) depth ln1
    (s :: ss, ln2)
end

/-- `objectContainsPrimes` with the prime test abstracted. -/
def objectContainsPrimesWith (cp : Value → Bool) : EntryList → Bool
  | .nil => false
  | .cons _ v es => cp v || objectContainsPrimesWith cp es

/-- Per-item scan used by `objectContainsPrimesExcludingWrapperKeys` on a
structured wrapper array. -/
def wrapperItemsPrime (cp : Value → Bool) : ValueList → Bool
  | .nil => false
  | .cons item rest =>
    (match item with
     | .vObj es => objectContainsPrimesWith cp es
     | _ => cp item) || wrapperItemsPrime cp rest

/-- `RomlConverter.objectContainsPrimesExcludingWrapperKeys` (lines 1027-1066). -/
def wrapperAwarePrimes (cp : Value → Bool) : EntryList → Bool
  | .nil => false
  | .cons key value rest =>
    if isSyntheticWrapperKey key then
      match value with
      | .vArr xs => if anyComplexItem xs then wrapperItemsPrime cp xs else false
      | .vObj es => objectContainsPrimesWith cp es
      | _ => wrapperAwarePrimes cp rest
    else
      if objectContainsPrimesWith cp (.cons key value .nil) then true
      else wrapperAwarePrimes cp rest

/-- Wrapping of non-map roots (`jsonToRoml`, lines 589-600). -/
def wrapData : Value → EntryList
  | .vArr xs => .cons "_items" (.vArr xs) .nil
  | .vObj es => es
  | v => .cons "_value" v .nil

/-- The reserved META header comment line. -/
def metaTagLine : String := "# ~META~ SIEVE_OF_ERATOSTHENES_INVOKED"

/-- Root-level entries loop (`convertObject`, root branch, lines 858-875). -/
def convertRoot (cp : Value → Bool) (es : EntryList) (ln : Nat) : String :=
  String.intercalate "\n" (convertEntries cp es 0 ln).1

/-- `RomlConverter.jsonToRoml` (lines 589-621), prime test abstracted. -/
def jsonToRomlCore (cp : Value → Bool) (data : Value) : String :=
  let processData := wrapData data
  let primesDetected := wrapperAwarePrimes cp processData
  let headerLines := if primesDetected then ["~ROML~", metaTagLine] else ["~ROML~"]
  String.intercalate "\n" headerLines ++ "\n" ++ convertRoot cp processData headerLines.length

/-- `encode`: `RomlConverter.jsonToRoml` with the real prime subsystem. -/
def jsonToRoml (data : Value) : String := jsonToRomlCore containsPrime data

end Roml

namespace Roml

/-! ## Lexer (`RomlLexer`, `src/unnamed/part_005`)

Line classification and quote-aware key-value parsing.  The hand-written
regexes of the source are translated match-by-match; comments on each helper
name the regex they implement.  `Except String` carries the one reachable JS
exception: the pipe-array regex `/^(.+?)\|\|(.*)|\|$/` contains a stray
top-level alternation `\|$`, so a line ending in a single `|` (with no `||`
after position 0) produces a match object with undefined capture groups and
the subsequent `value.includes('||')` throws a `TypeError`. -/

/-- `unescapeStringValue`: the five global replacements, in source order
(backslash unescaping deliberately last, as in the source). -/
def unescapeC (cs : Chars) : Chars :=
  replaceAllC ['\\', '\\'] ['\\'] <|
  replaceAllC ['\\', '"'] ['"'] <|
  replaceAllC ['\\', 't'] ['\t'] <|
  replaceAllC ['\\', 'r'] ['\r'] <|
  replaceAllC ['\\', 'n'] ['\n'] cs

/-- Token styles as carried by lexer tokens (`UNKNOWN` is the parser's
fallback for a missing style). -/
inductive TokStyle where
  | QUOTED | AMPERSAND | BRACKETS | PIPES | DOUBLE_COLON | FAKE_COMMENT
  | AT_SANDWICH | UNDERSCORE | COLON_DELIM | JSON_STYLE
  | EQUALS | COLON | TILDE | HASH | PERCENT | DOLLAR | CARET | PLUS
  | UNKNOWN
deriving Repr, DecidableEq

inductive TokType where
  | HEADER | KEY_VALUE | OBJECT_START | OBJECT_END | ARRAY_START | ARRAY_END
  | ARRAY_ITEM | EOF
deriving Repr, DecidableEq

instance : Inhabited Value := ⟨.vNull⟩

instance : Inhabited TokStyle := ⟨.UNKNOWN⟩

/-- `RomlToken` (offsets are derivable bookkeeping never observed by the
parser's data or errors, and are omitted). -/
structure Token where
  type : TokType
  value : String
  lineNumber : Nat
  style : Option TokStyle := none
  key : Option String := none
  parsedValue : Option Value := none
  depth : Option Nat := none
deriving Repr, DecidableEq

/-- `parseSpecialValue` (part_005 lines 608-621). -/
def parseSpecialValue (cs : Chars) : Value :=
  if cs = chars "__NULL__" then .vNull
  else if cs = chars "__EMPTY__" then .vStr ""
  else if cs = chars "__UNDEFINED__" then .vUndef
  else if cs = chars "true" then .vBool true
  else if cs = chars "false" then .vBool false
  else match canonicalInt cs with
    | some n => .vNum n
    | none => .vStr (ofChars cs)

/-- `parseJsonValue` (part_005 lines 623-650). -/
def parseJsonValue (cs : Chars) : Value :=
  let t := jsTrim cs
  if startsWithC ['"'] t && endsWithC ['"'] t then .vStr (ofChars ((t.drop 1).dropLast))
  else if t = chars "null" then .vNull
  else if t = chars "true" then .vBool true
  else if t = chars "false" then .vBool false
  else if t = chars "undefined" then .vUndef
  else match canonicalInt t with
    | some n => .vNum n
    | none =>
      if t = chars "__NULL__" then .vNull
      else if t = chars "__EMPTY__" then .vStr ""
      else if t = chars "__UNDEFINED__" then .vUndef
      else .vStr (ofChars t)

/-- `findSeparatorOutsideQuotes` (part_005 lines 322-350). -/
def findSepOutsideQuotes (sep : Char) (cs : Chars) : Option Nat :=
  go cs false false 0
where
  go : Chars → Bool → Bool → Nat → Option Nat
    | [], _, _, _ => none
    | c :: rest, inQ, esc, i =>
      if esc then go rest inQ false (i + 1)
      else if c == '\\' then go rest inQ true (i + 1)
      else if c == '"' then go rest (!inQ) false (i + 1)
      else if !inQ && c == sep then some i
      else go rest inQ false (i + 1)

/-- Smallest `i ≥ 1` with `cs[i] = a` and `cs[i+1] = b` (the lazy `(.+?)`
followed by a two-character literal). -/
def findPairFrom1 (a b : Char) (cs : Chars) : Option Nat :=
  match cs with
  | [] => none
  | _ :: rest => go rest 1
where
  go : Chars → Nat → Option Nat
    | c1 :: c2 :: rest, i => if c1 == a && c2 == b then some i else go (c2 :: rest) (i + 1)
    | _, _ => none

/-- Smallest `i ≥ 1` with `cs[i] = a` (the lazy `(.+?)` followed by a
one-character literal). -/
def findCharFrom1 (a : Char) (cs : Chars) : Option Nat :=
  match cs with
  | [] => none
  | _ :: rest => go rest 1
where
  go : Chars → Nat → Option Nat
    | c :: rest, i => if c == a then some i else go rest (i + 1)
    | [], _ => none

/-- `key="..."` detection: the regex `/^(.+?)="(.*)"$/` matches iff the line
ends in `"` and `="` occurs at some position `i ∈ [1, len-3]`; the lazy group
takes the smallest such `i`. -/
def quotedLineMatch (cs : Chars) : Option (Chars × Chars) :=
  if endsWithC ['"'] cs then
    match findPairFrom1 '=' '"' cs with
    | some i =>
      if i + 3 ≤ cs.length then some (cs.take i, ((cs.drop (i + 2)).dropLast))
      else none
    | none => none
  else none

/-- `/^"(.*)"$/` on a value part: first and last characters are quotes. -/
def quotedValueMatchStar (cs : Chars) : Option Chars :=
  if cs.length ≥ 2 && startsWithC ['"'] cs && endsWithC ['"'] cs then
    some ((cs.drop 1).dropLast)
  else none

/-- `/^"(.+)"$/` on a value part: as above but with a non-empty inside. -/
def quotedValueMatchPlus (cs : Chars) : Option Chars :=
  if cs.length ≥ 3 && startsWithC ['"'] cs && endsWithC ['"'] cs then
    some ((cs.drop 1).dropLast)
  else none

/-- `isColonArray` (part_005 lines 355-358). -/
def isColonArray (cs : Chars) (firstColonPos : Nat) : Bool :=
  containsC [':'] (cs.drop (firstColonPos + 1))

/-- `analyzeLineStructure` (part_005 lines 237-317): identify the style and the
key/value parts, quote-aware. -/
def analyzeLineStructure (line : Chars) : Option (TokStyle × Chars × Chars) :=
  match quotedLineMatch line with
  | some (k, v) => some (.QUOTED, k, v)
  | none =>
    -- AMPERSAND first: &key&value
    let amp : Option (TokStyle × Chars × Chars) :=
      if startsWithC ['&'] line then
        let content := line.drop 1
        match findSepOutsideQuotes '&' content with
        | some p => some (.AMPERSAND, content.take p, content.drop (p + 1))
        | none => none
      else none
    match amp with
    | some r => some r
    | none =>
      -- single bracket pattern: key<value>
      let br : Option (TokStyle × Chars × Chars) :=
        if endsWithC ['>'] line then
          match findCharFrom1 '<' line with
          | some i =>
            if i + 3 ≤ line.length then
              some (.BRACKETS, line.take i, ((line.drop (i + 1)).dropLast))
            else none
          | none => none
        else none
      match br with
      | some r => some r
      | none =>
        -- earliest of the eight one-character separators outside quotes
        let cands := [('=', TokStyle.EQUALS), (':', TokStyle.COLON), ('~', TokStyle.TILDE),
                      ('#', TokStyle.HASH), ('%', TokStyle.PERCENT), ('$', TokStyle.DOLLAR),
                      ('^', TokStyle.CARET), ('+', TokStyle.PLUS)]
        let best := cands.foldl (fun acc (cand : Char × TokStyle) =>
          match findSepOutsideQuotes cand.1 line with
          | some p =>
            if cand.1 == ':' && isColonArray line p then acc
            else match acc with
              | some (q, _) => if p < q then some (p, cand.2) else acc
              | none => some (p, cand.2)
          | none => acc) none
        match best with
        | some (p, st) => some (st, line.take p, line.drop (p + 1))
        | none => none

/-- `parseValueForStyle` (part_005 lines 363-396). -/
def parseValueForStyle (key : String) (valuePart : Chars) (style : TokStyle) :
    String × Value × TokStyle :=
  if style == .QUOTED then (key, .vStr (ofChars (unescapeC valuePart)), style)
  else match quotedValueMatchStar valuePart with
    | some inner => (key, .vStr (ofChars (unescapeC inner)), style)
    | none =>
      if style == .EQUALS && valuePart = chars "yes" then (key, .vBool true, style)
      else if style == .EQUALS && valuePart = chars "no" then (key, .vBool false, style)
      else if style == .EQUALS && valuePart = [] then (key, .vStr "", style)
      else if style == .COLON || style == .AMPERSAND then
        match canonicalInt valuePart with
        | some n => (key, .vNum n, style)
        | none => (key, parseSpecialValue valuePart, style)
      else (key, parseSpecialValue valuePart, style)

/-- `extractKey` (part_005 lines 204-211): unquote and unescape a quoted key. -/
def extractKey (keyPart : Chars) : String :=
  match quotedValueMatchStar keyPart with
  | some inner => ofChars (unescapeC inner)
  | none => ofChars keyPart

/-- All captures of `/<([^>]*)>/g` in order (used for multi-bracket arrays). -/
def collectAngles (cs : Chars) : List Chars :=
  go cs.length cs
where
  splitAtGt : Chars → Chars → Option (Chars × Chars)
    | [], _ => none
    | c :: rest, acc => if c == '>' then some (acc.reverse, rest) else splitAtGt rest (c :: acc)
  go : Nat → Chars → List Chars
    | 0, _ => []
    | _, [] => []
    | fuel + 1, c :: rest =>
      if c == '<' then
        match splitAtGt rest [] with
        | some (content, after) => content :: go fuel after
        | none => []
      else go fuel rest

/-- The quote- and depth-aware comma splitter used for JSON-style arrays
(part_005 lines 552-585); returns the raw item segments. -/
def jsonSplitItems (cs : Chars) : List Chars :=
  go cs none [] false 0
where
  go : Chars → Option Char → Chars → Bool → Nat → List Chars
    | [], _, acc, _, _ => [acc.reverse]
    | c :: rest, prev, acc, inQ, depth =>
      if c == '"' && prev != some '\\' then go rest (some c) (c :: acc) (!inQ) depth
      else if !inQ && c == '[' then go rest (some c) (c :: acc) inQ (depth + 1)
      else if !inQ && c == ']' then go rest (some c) (c :: acc) inQ (depth - 1)
      else if !inQ && c == ',' && depth == 0 then acc.reverse :: go rest (some c) [] inQ depth
      else go rest (some c) (c :: acc) inQ depth

/-- Pipe-array item parsing (quoted items preserved, others special-parsed). -/
def parsePipeItem (item : Chars) : Value :=
  match quotedValueMatchPlus item with
  | some inner => .vStr (ofChars (unescapeC inner))
  | none => parseSpecialValue item

/-- `parseSpecialCases` (part_005 lines 402-607), in source order.
`Except.error` is the `TypeError` thrown on the stray `\|$` alternative of the
pipe-array regex. -/
def parseSpecialCases (line : Chars) : Except String (Option (String × Value × TokStyle)) := do
  -- ::key::value::
  let dc : Option (String × Value × TokStyle) :=
    if startsWithC [':', ':'] line && endsWithC [':', ':'] line then
      let content := (line.drop 2).dropLast.dropLast
      match indexOfC [':', ':'] content with
      | some idx =>
        let keyPart := content.take idx
        let valuePart := content.drop (idx + 2)
        let key := extractKey keyPart
        (match quotedValueMatchPlus valuePart with
         | some inner => some (key, .vStr (ofChars (unescapeC inner)), .DOUBLE_COLON)
         | none => some (key, parseSpecialValue valuePart, .DOUBLE_COLON))
      | none => none
    else none
  if dc.isSome then return some dc.get!
  -- //key//value
  let fc : Option (String × Value × TokStyle) :=
    if startsWithC ['/', '/'] line then
      let content := line.drop 2
      match findSepOutsideQuotes '/' content with
      | some p =>
        if startsWithC ['/', '/'] (content.drop p) then
          let key := extractKey (content.take p)
          let valuePart := content.drop (p + 2)
          (match quotedValueMatchStar valuePart with
           | some inner => some (key, .vStr (ofChars (unescapeC inner)), .FAKE_COMMENT)
           | none => some (key, parseSpecialValue valuePart, .FAKE_COMMENT))
        else none
      | none => none
    else none
  if fc.isSome then return some fc.get!
  -- @key@value@
  let at_ : Option (String × Value × TokStyle) :=
    if startsWithC ['@'] line && endsWithC ['@'] line then
      let content := (line.drop 1).dropLast
      match findSepOutsideQuotes '@' content with
      | some p =>
        let key := extractKey (content.take p)
        let valuePart := content.drop (p + 1)
        (match quotedValueMatchPlus valuePart with
         | some inner => some (key, .vStr (ofChars (unescapeC inner)), .AT_SANDWICH)
         | none => some (key, parseSpecialValue valuePart, .AT_SANDWICH))
      | none => none
    else none
  if at_.isSome then return some at_.get!
  -- _key_value_
  let us : Option (String × Value × TokStyle) :=
    if startsWithC ['_'] line && endsWithC ['_'] line then
      let content := (line.drop 1).dropLast
      match findSepOutsideQuotes '_' content with
      | some p =>
        let key := extractKey (content.take p)
        let valuePart := content.drop (p + 1)
        (match quotedValueMatchPlus valuePart with
         | some inner => some (key, .vStr (ofChars (unescapeC inner)), .UNDERSCORE)
         | none => some (key, parseSpecialValue valuePart, .UNDERSCORE))
      | none => none
    else none
  if us.isSome then return some us.get!
  -- key<item1><item2>  (multi-bracket arrays)
  let mb : Option (String × Value × TokStyle) :=
    if containsC ['>', '<'] line && endsWithC ['>'] line then
      match findCharFrom1 '<' line with
      | some i =>
        if i + 3 ≤ line.length then
          let key := extractKey (line.take i)
          let items := (collectAngles line).filter (fun item => item ≠ [])
          some (key, .vArr (ValueList.ofList (items.map parsePipeItem)), .BRACKETS)
        else none
      | none => none
    else none
  if mb.isSome then return some mb.get!
  -- key<value>
  let sb : Option (String × Value × TokStyle) :=
    if endsWithC ['>'] line then
      match findCharFrom1 '<' line with
      | some i =>
        if i + 3 ≤ line.length then
          let key := extractKey (line.take i)
          let v := parseSpecialValue ((line.drop (i + 1)).dropLast)
          if v == .vStr "true" then some (key, .vBool true, .BRACKETS)
          else if v == .vStr "false" then some (key, .vBool false, .BRACKETS)
          else some (key, v, .BRACKETS)
        else none
      | none => none
    else none
  if sb.isSome then return some sb.get!
  -- key||item1||item2||  — the regex /^(.+?)\|\|(.*)|\|$/ with its stray
  -- second alternative `\|$`
  match findPairFrom1 '|' '|' line with
  | some c =>
    let key := ofChars (line.take c)
    let value := line.drop (c + 2)
    if containsC ['|', '|'] value then
      let items := ((splitOnC ['|', '|'] value).filter (fun item => jsTrim item ≠ [])).map parsePipeItem
      return some (key, .vArr (ValueList.ofList items), .PIPES)
    else
      if value = [] then return some (key, .vArr .nil, .PIPES)
      else
        let single := parsePipeItem value
        if key == "_items" || key == "_value" then
          return some (key, .vArr (.cons single .nil), .PIPES)
        else
          return some (key, single, .PIPES)
  | none =>
    if endsWithC ['|'] line then
      -- match via `\|$` alone: capture groups are undefined,
      -- `value.includes('||')` throws a TypeError, and the catch-all stores
      -- `error.message` (the message carries no exception-name prefix)
      throw "Cannot read properties of undefined (reading 'includes')"
    else
    -- key["item1",7,true]  (JSON-style arrays)
    let ja : Option (String × Value × TokStyle) :=
      if endsWithC [']'] line then
        match findCharFrom1 '[' line with
        | some i =>
          if i + 3 ≤ line.length then
            let key := ofChars (line.take i)
            let inner := ((line.drop (i + 1)).dropLast)
            if containsC [','] inner then
              let items := (jsonSplitItems inner).filterMap (fun seg =>
                let t := jsTrim seg
                if t = [] then none else some (parseJsonValue t))
              some (key, .vArr (ValueList.ofList items), .JSON_STYLE)
            else none
          else none
        | none => none
      else none
    if ja.isSome then return some ja.get!
    -- key:item1:item2:item3  (colon-delimited arrays)
    let ca : Option (String × Value × TokStyle) :=
      match findCharFrom1 ':' line with
      | some i =>
        if i + 2 ≤ line.length then
          let key := ofChars (line.take i)
          let value := line.drop (i + 1)
          if containsC [':'] value then
            let items := (splitOnC [':'] value).map (fun item =>
              match quotedValueMatchStar item with
              | some inner => Value.vStr (ofChars (unescapeC inner))
              | none => parseSpecialValue item)
            some (key, .vArr (ValueList.ofList items), .COLON_DELIM)
          else none
        else none
      | none => none
    if ca.isSome then return some ca.get!
    return none

/-- `parseKeyValueLine` (part_005 lines 202-231): special cases first, then
structural analysis. -/
def parseKeyValueLine (line : Chars) : Except String (Option (String × Value × TokStyle)) := do
  match ← parseSpecialCases line with
  | some r => return some r
  | none =>
    match analyzeLineStructure line with
    | some (style, keyPart, valuePart) =>
      return some (parseValueForStyle (extractKey keyPart) valuePart style)
    | none => return none

/-- `calculateDepth` (part_005 lines 652-660). -/
def calculateDepth (line : Chars) : Nat :=
  go line 0 / 2
where
  go : Chars → Nat → Nat
    | [], acc => acc
    | c :: rest, acc =>
      if c == ' ' then go rest (acc + 1)
      else if c == '\t' then go rest (acc + 2)
      else acc

/-- `/^\[(\d+)\]\{$/`: an array-item marker line. -/
def arrayItemMatch (cs : Chars) : Option Chars :=
  if startsWithC ['['] cs then
    let afterBracket := cs.drop 1
    let digits := afterBracket.takeWhile Char.isDigit
    let rest := afterBracket.dropWhile Char.isDigit
    if digits ≠ [] && rest = [']', '\x7b'] then some digits else none
  else none

/-- Classify one raw line into its tokens (`processLines` body, part_005 lines
78-200; each iteration is independent of the others). -/
def lineTokens (lineNumber : Nat) (rawLine : Chars) : Except String (List Token) := do
  let trimmed := jsTrim rawLine
  if trimmed = [] then return []
  let depth := calculateDepth rawLine
  if startsWithC ['#'] trimmed then
    if containsC (chars "~META~") trimmed then
      return [{ type := .HEADER, value := ofChars trimmed, lineNumber := lineNumber }]
    else
      return []
  if trimmed = ['\x7d'] then
    return [{ type := .OBJECT_END, value := ofChars trimmed, lineNumber := lineNumber,
              depth := some depth }]
  if trimmed = [']'] then
    return [{ type := .ARRAY_END, value := ofChars trimmed, lineNumber := lineNumber,
              depth := some depth }]
  match arrayItemMatch trimmed with
  | some digits =>
    return [{ type := .ARRAY_ITEM, value := ofChars trimmed, lineNumber := lineNumber,
              key := some ("[" ++ ofChars digits ++ "]"), depth := some depth }]
  | none =>
  if endsWithC ['\x7b'] trimmed && trimmed.length ≥ 2 then
    return [{ type := .OBJECT_START, value := ofChars trimmed, lineNumber := lineNumber,
              key := some (ofChars trimmed.dropLast), depth := some depth }]
  if endsWithC ['['] trimmed && trimmed.length ≥ 2 then
    return [{ type := .ARRAY_START, value := ofChars trimmed, lineNumber := lineNumber,
              key := some (ofChars trimmed.dropLast), depth := some depth }]
  let contentLine := jsTrimStart rawLine
  match ← parseKeyValueLine contentLine with
  | some (k, v, style) =>
    return [{ type := .KEY_VALUE, value := ofChars contentLine, lineNumber := lineNumber,
              style := some style, key := some k, parsedValue := some v, depth := some depth }]
  | none => return []

def processLines : List Chars → Nat → Except String (List Token)
  | [], _ => pure []
  | l :: rest, i => do
    let ts ← lineTokens i l
    let more ← processLines rest (i + 1)
    pure (ts ++ more)

/-- `RomlLexer.tokenize` (part_005 lines 62-76). -/
def tokenize (input : String) : Except String (List Token) := do
  let lns := splitOnC ['\n'] (chars input)
  let firstIsHeader :=
    match lns with
    | l0 :: _ => startsWithC (chars "~ROML~") (jsTrim l0)
    | [] => false
  let headerToks : List Token :=
    match lns with
    | l0 :: _ =>
      if firstIsHeader then
        [{ type := .HEADER, value := ofChars (jsTrim l0), lineNumber := 0 }]
      else []
    | [] => []
  let contentStart := if firstIsHeader then 1 else 0
  let body ← processLines (lns.drop contentStart) contentStart
  pure (headerToks ++ body ++ [{ type := .EOF, value := "", lineNumber := lns.length }])

end Roml

namespace Roml

/-! ## Parser (`RomlParser`, `src/parser/RomlParser.ts` lines 1-462)

The token walk is an explicit-position loop; we thread the position and the
mutable parser state (`errors`, `metaTagPresent`, `primesDetected`,
`invalidPrimeKeys`) and a fuel counter that strictly decreases on every loop
iteration and nested call.  Each relevant call supplies fuel larger than the
number of steps the JS loops can take (`2 * tokens.length + 4`), so the
fuel-exhaustion branch is unreachable.  AST node offsets, which influence
nothing observable, are omitted; `createMetadata` (a wall-clock timestamp and
two constants) is likewise outside the model. -/

/-- Mutable parser state (`errors`, META/prime flags). -/
structure PState where
  errors : List String := []
  metaTagPresent : Bool := false
  primesDetected : Bool := false
  invalidPrimeKeys : List String := []
deriving Repr, DecidableEq

mutual
/-- Decoder-side AST: `RomlObjectNode`. -/
inductive ObjNode where
  | mk (key : Option String) (props : PropList) (children : ChildList)

/-- `RomlKeyValueNode` list (key, value, style). -/
inductive PropList where
  | nil
  | cons (key : String) (v : Value) (style : TokStyle) (tail : PropList)

/-- `children: (RomlObjectNode | RomlArrayNode)[]`. -/
inductive ChildList where
  | nil
  | consObj (o : ObjNode) (tail : ChildList)
  | consArr (key : String) (items : ItemList) (tail : ChildList)

/-- `items: (RomlValueNode | RomlObjectNode | RomlArrayNode)[]`. -/
inductive ItemList where
  | nil
  | consVal (v : Value) (idx : Nat) (tail : ItemList)
  | consObj (o : ObjNode) (tail : ItemList)
  | consArr (key : String) (items : ItemList) (tail : ItemList)
end

/-- `extractArrayIndex` (`/\[(\d+)\]/` anywhere in the key, else 0). -/
def extractArrayIndex (key : String) : Nat :=
  go (chars key)
where
  go : Chars → Nat
    | [] => 0
    | '[' :: rest =>
      let digits := rest.takeWhile Char.isDigit
      let after := rest.dropWhile Char.isDigit
      if digits ≠ [] && after.headD ' ' == ']' then digitsVal digits
      else go rest
    | _ :: rest => go rest

/-- The prime-prefix validation shared by `parseKeyValue` and the array item
branch of `parseChildArray` (RomlParser lines 283-308): strip `!`, record that
primes were seen, and if the value is numeric (number, or string that parses
back to itself) check primality, reporting a mismatch. -/
def primePrefixCheck (st : PState) (rawKey : String) (pv : Value) (lineNumber : Nat) :
    PState × String :=
  if startsWithC ['!'] (chars rawKey) then
    let cleanKey := ofChars ((chars rawKey).drop 1)
    let numericValue : Option Int :=
      match pv with
      | .vNum n => some n
      | .vStr s => canonicalInt (chars s)
      | _ => none
    let st := { st with primesDetected := true }
    match numericValue with
    | some n =>
      if !parserIsPrime (n : ℚ) then
        ({ st with
            invalidPrimeKeys := st.invalidPrimeKeys ++
              ["Line " ++ toString (lineNumber + 1) ++ ": Key \"" ++ rawKey ++
               "\" has prime prefix but value " ++ toString n ++ " is not prime"]
            errors := st.errors ++
              ["Invalid prime prefix at line " ++ toString (lineNumber + 1) ++ ": Key \"" ++
               rawKey ++ "\" is marked as prime but value " ++ toString n ++
               " is not a prime number"] }, cleanKey)
      else (st, cleanKey)
    | none => (st, cleanKey)
  else (st, rawKey)

/-- `parseKeyValue` (lines 280-321): `null` when key or parsed value is
(JS) `undefined`; otherwise the prime-checked key-value node. -/
def parseKeyValue (st : PState) (t : Token) : PState × Option (String × Value × TokStyle) :=
  match t.key, t.parsedValue with
  | some k, some pv =>
    if pv == .vUndef then (st, none)
    else
      let (st, cleanKey) := primePrefixCheck st k pv t.lineNumber
      (st, some (cleanKey, pv, t.style.getD .UNKNOWN))
  | _, _ => (st, none)

mutual
/-- `parseObject` (lines 134-177): the depth-tracked walk collecting
properties and children until a matching close. -/
def parseObjectLoop (tokens : List Token) :
    Nat → Nat → Nat → PState → PropList × ChildList × Nat × PState
  | 0, pos, _, st => (.nil, .nil, pos, st)
  | fuel + 1, pos, expectedDepth, st =>
    match tokens.get? pos with
    | none => (.nil, .nil, pos, st)
    | some t =>
      if t.type == .EOF then (.nil, .nil, pos, st)
      else if (t.type == .OBJECT_END || t.type == .ARRAY_END) &&
              t.depth.getD 0 ≤ expectedDepth then
        (.nil, .nil, if t.type == .OBJECT_END then pos + 1 else pos, st)
      else if t.type == .KEY_VALUE then
        let (st, kv) := parseKeyValue st t
        let (props, children, pos', st') := parseObjectLoop tokens fuel (pos + 1) expectedDepth st
        match kv with
        | some (k, v, sty) => (.cons k v sty props, children, pos', st')
        | none => (props, children, pos', st')
      else if t.type == .OBJECT_START then
        match t.key with
        | none =>
          -- JS would spin forever here (parseChildObject returns null without
          -- advancing); unreachable from this lexer, which always sets the key
          (.nil, .nil, pos, st)
        | some rawKey =>
          let cleanKey :=
            if startsWithC ['!'] (chars rawKey) then ofChars ((chars rawKey).drop 1) else rawKey
          let st := if startsWithC ['!'] (chars rawKey) then { st with primesDetected := true } else st
          let (cprops, cchildren, pos1, st1) :=
            parseObjectLoop tokens fuel (pos + 1) (t.depth.getD 0 + 1) st
          let child := ObjNode.mk (some cleanKey) cprops cchildren
          let (props, children, pos', st') := parseObjectLoop tokens fuel pos1 expectedDepth st1
          (props, .consObj child children, pos', st')
      else if t.type == .ARRAY_START then
        match t.key with
        | none => (.nil, .nil, pos, st)
        | some rawKey =>
          let cleanKey :=
            if startsWithC ['!'] (chars rawKey) then ofChars ((chars rawKey).drop 1) else rawKey
          let st := if startsWithC ['!'] (chars rawKey) then { st with primesDetected := true } else st
          let (items, pos1, st1) :=
            parseArrayItems tokens fuel (pos + 1) (t.depth.getD 0) st
          let (props, children, pos', st') := parseObjectLoop tokens fuel pos1 expectedDepth st1
          (props, .consArr cleanKey items children, pos', st')
      else
        parseObjectLoop tokens fuel (pos + 1) expectedDepth st

/-- `parseChildArray`'s item loop (lines 205-266). -/
def parseArrayItems (tokens : List Token) :
    Nat → Nat → Nat → PState → ItemList × Nat × PState
  | 0, pos, _, st => (.nil, pos, st)
  | fuel + 1, pos, arrDepth, st =>
    match tokens.get? pos with
    | none => (.nil, pos, st)
    | some t =>
      if t.type == .EOF then (.nil, pos, st)
      else if t.type == .ARRAY_END && t.depth.getD 0 ≤ arrDepth then (.nil, pos + 1, st)
      else if t.type == .ARRAY_ITEM then
        let (cprops, cchildren, pos1, st1) :=
          parseObjectLoop tokens fuel (pos + 1) (t.depth.getD 0 + 1) st
        let child := ObjNode.mk t.key cprops cchildren
        let (items, pos', st') := parseArrayItems tokens fuel pos1 arrDepth st1
        (.consObj child items, pos', st')
      else if t.type == .ARRAY_START then
        match t.key with
        | none => (.nil, pos, st)
        | some rawKey =>
          let cleanKey :=
            if startsWithC ['!'] (chars rawKey) then ofChars ((chars rawKey).drop 1) else rawKey
          let st := if startsWithC ['!'] (chars rawKey) then { st with primesDetected := true } else st
          let (nested, pos1, st1) := parseArrayItems tokens fuel (pos + 1) (t.depth.getD 0) st
          let (items, pos', st') := parseArrayItems tokens fuel pos1 arrDepth st1
          (.consArr cleanKey nested items, pos', st')
      else if t.type == .KEY_VALUE then
        -- primitive array item; prime prefix on the raw key is validated
        let st :=
          match t.key with
          | some k => (primePrefixCheck st k (t.parsedValue.getD (.vStr t.value)) t.lineNumber).1
          | none => st
        let idx := extractArrayIndex (t.key.getD "")
        let v :=
          match t.parsedValue with
          | some pv => if pv == .vUndef then Value.vStr t.value else pv
          | none => Value.vStr t.value
        let (items, pos', st') := parseArrayItems tokens fuel (pos + 1) arrDepth st
        (.consVal v idx items, pos', st')
      else
        parseArrayItems tokens fuel (pos + 1) arrDepth st
end

/-- JS object property assignment: overwrite in place or append. -/
def jsObjSet (es : EntryList) (k : String) (v : Value) : EntryList :=
  match es with
  | .nil => .cons k v .nil
  | .cons k0 v0 rest =>
    if k0 == k then .cons k0 v rest else .cons k0 v0 (jsObjSet rest k v)

mutual
/-- `objectNodeToData` (lines 350-366): properties first, then children, each
`result[key] = value` folded left to right over the object under construction. -/
def objectNodeToData : ObjNode → EntryList
  | .mk _ props children => childListToData (propListToData .nil props) children

def propListToData (acc : EntryList) : PropList → EntryList
  | .nil => acc
  | .cons k v _ rest => propListToData (jsObjSet acc k v) rest

def childListToData (acc : EntryList) : ChildList → EntryList
  | .nil => acc
  | .consObj o rest =>
    childListToData (jsObjSet acc ((objKey o).getD "undefined") (.vObj (objectNodeToData o))) rest
  | .consArr k items rest =>
    childListToData (jsObjSet acc k (.vArr (itemListToData items))) rest

def itemListToData : ItemList → ValueList
  | .nil => .nil
  | .consVal v _ rest => .cons v (itemListToData rest)
  | .consObj o rest => .cons (.vObj (objectNodeToData o)) (itemListToData rest)
  | .consArr _ items rest => .cons (.vArr (itemListToData items)) (itemListToData rest)

def objKey : ObjNode → Option String
  | .mk k _ _ => k
end

/-- `unwrapSyntheticObject` (lines 330-348). -/
def unwrapSyntheticObject (data : EntryList) : Value :=
  match data with
  | .cons "_items" (.vArr xs) .nil => .vArr xs
  | .cons "_value" v .nil => v
  | _ => .vObj data

/-- `checkForMetaTag` (lines 416-435): any token value containing the phrase. -/
def checkForMetaTag (tokens : List Token) : Bool :=
  tokens.any fun t => containsC (chars ("~META~ SIEVE_OF_ERATOSTHENES_INVOKED")) (chars t.value)

/-- The two prime/META consistency error strings (lines 437-451). -/
def missingMetaMsg : String :=
  "Document contains prime-prefixed keys but is missing the required ~META~ SIEVE_OF_ERATOSTHENES_INVOKED tag. Add the META tag at the beginning of the document or remove prime prefixes (!)."

def declaresMetaMsg : String :=
  "Document declares ~META~ SIEVE_OF_ERATOSTHENES_INVOKED but contains no prime-prefixed keys. Remove the META tag or add prime prefixes (!) to keys with prime number values."

/-- `validatePrimeConsistency` (lines 437-451). -/
def validatePrimeConsistency (st : PState) : PState :=
  let st :=
    if st.primesDetected && !st.metaTagPresent then
      { st with errors := st.errors ++ [missingMetaMsg] }
    else st
  if st.metaTagPresent && !st.primesDetected then
    { st with errors := st.errors ++ [declaresMetaMsg] }
  else st

/-- `RomlParseResult` (data, errors, and the prime validation summary; the
`metadata` timestamp record is outside the model). -/
structure ParseResult where
  data : Value
  errors : List String
  hasPrimes : Bool
  metaTagPresent : Bool
  primesDetected : Bool
  invalidPrimeKeys : List String
deriving Repr, DecidableEq

/-- `RomlParser.parse` (lines 82-114). -/
def romlParse (tokens : List Token) : ParseResult :=
  let st0 : PState := { metaTagPresent := checkForMetaTag tokens }
  let (props, children, _, st1) :=
    parseObjectLoop tokens (2 * tokens.length + 4) 0 0 st0
  let st2 := validatePrimeConsistency st1
  let data := unwrapSyntheticObject (objectNodeToData (.mk none props children))
  { data := data
    errors := st2.errors
    hasPrimes := st2.primesDetected
    metaTagPresent := st2.metaTagPresent
    primesDetected := st2.primesDetected
    invalidPrimeKeys := st2.invalidPrimeKeys }

/-- The decode result exposed by `RomlFile.parse` (data plus errors). -/
structure DecodeResult where
  data : Value
  errors : List String
  metaTagPresent : Bool
  primesDetected : Bool
deriving Repr, DecidableEq

/-- `decode`: `RomlFile.parse` (RomlLexer.ts lines 2184-2221) — lexer then
parser, with the catch-all that turns a thrown lexer error into an error entry
and the empty best-effort value `{}`. -/
def romlDecode (content : String) : DecodeResult :=
  match tokenize content with
  | .error e =>
    { data := .vObj .nil, errors := [e], metaTagPresent := false, primesDetected := false }
  | .ok tokens =>
    let r := romlParse tokens
    { data := r.data, errors := r.errors,
      metaTagPresent := r.metaTagPresent, primesDetected := r.primesDetected }

end Roml

namespace Roml

/-! ## Auxiliary definitions for the claim statements -/

/-- `RomlOptions` (`seed`, `preserveFormatting`) accepted by `RomlFile`. -/
structure RomlOptions where
  seed : Option Int := none
  preserveFormatting : Option Bool := none
deriving Repr, DecidableEq

/-- The ROML text produced by `RomlFile.fromJSON(jsonData, options)`: the
options record (including `seed`) is stored but never consulted by the
converter. -/
def fromJSONContent (jsonData : Value) (options : RomlOptions) : String :=
  jsonToRoml jsonData

/-- The marker-string substitution `convertValue` applies before calling
`selectSyntax`: `null ↦ '__NULL__'`, `undefined ↦ '__UNDEFINED__'`, everything
else (including the empty string) passed through. -/
def specialMarker : Value → Value
  | .vNull => .vStr "__NULL__"
  | .vUndef => .vStr "__UNDEFINED__"
  | v => v

mutual
/-- Modelled from the spec's words ("at least one key's value recursively
contains a numeric value that is prime"): recursive prime containment with
primality spelled as `Nat.Prime`, independent of the code's sieve. -/
def specContainsPrime : Value → Bool
  | .vNum n => decide (Nat.Prime n.toNat)
  | .vArr xs => specContainsPrimeList xs
  | .vObj es => specContainsPrimeEntries es
  | _ => false

def specContainsPrimeList : ValueList → Bool
  | .nil => false
  | .cons x xs => specContainsPrime x || specContainsPrimeList xs

def specContainsPrimeEntries : EntryList → Bool
  | .nil => false
  | .cons _ v es => specContainsPrime v || specContainsPrimeEntries es
end

/-- Spec-level restatement of the encoder's header condition on a top-level
entry list: a key named `_items`/`_value` is treated as a synthetic wrapper
(an array under it counts only when it has object/array elements, in which
case the scan ends with the answer for that array; a map under it ends the
scan with its recursive answer; a primitive under it is skipped); any other
key counts when its value recursively contains a prime. -/
def specObjEntries : EntryList → Bool
  | .nil => false
  | .cons k v rest =>
    if k == "_items" || k == "_value" then
      match v with
      | .vArr xs => anyComplexItem xs && specContainsPrimeList xs
      | .vObj es => specContainsPrimeEntries es
      | _ => specObjEntries rest
    else specContainsPrime v || specObjEntries rest

/-- The amended C4 header condition: map roots follow `specObjEntries` over
their entries; array roots (wrapped as `_items`) produce the marker only when
the array has object/array elements and recursively contains a prime;
primitive roots never produce it. -/
def specHeaderPrimes : Value → Bool
  | .vObj es => specObjEntries es
  | .vArr xs => anyComplexItem xs && specContainsPrimeList xs
  | _ => false

/-- `{"name":"Robert","age":7}` from the spec's scenario. -/
def robertInput : Value :=
  .vObj (.cons "name" (.vStr "Robert") (.cons "age" (.vNum 7) .nil))

/-- The `PrimeValidation.test.ts` fixture with prime-prefixed keys and no META
tag. -/
def docNoMeta : String :=
  "!count=\"7\"\n!value=\"13\"\nnested\x7b\n  !prime=\"17\"\n  composite=\"10\"\n\x7d"

/-- Its decoded best-effort value. -/
def dataNoMeta : Value :=
  .vObj (.cons "count" (.vStr "7") (.cons "value" (.vStr "13")
    (.cons "nested" (.vObj (.cons "prime" (.vStr "17")
      (.cons "composite" (.vStr "10") .nil))) .nil)))

/-- The `PrimeValidation.test.ts` fixture with a META tag and no primes. -/
def docMetaNoPrimes : String :=
  "~ROML~\n# ~META~ SIEVE_OF_ERATOSTHENES_INVOKED\ncomposite=\"4\"\nanother=\"6\"\nvalue=\"8\""

/-- Its decoded best-effort value. -/
def dataMetaNoPrimes : Value :=
  .vObj (.cons "composite" (.vStr "4") (.cons "another" (.vStr "6")
    (.cons "value" (.vStr "8") .nil)))

/-- The pre-validation parser state: everything `RomlParser.parse` accumulates
before `validatePrimeConsistency` runs. -/
def preParseState (tokens : List Token) : PState :=
  (parseObjectLoop tokens (2 * tokens.length + 4) 0 0
      { metaTagPresent := checkForMetaTag tokens }).2.2.2

/-- A lexed key-value token carrying a prime prefix on a prime value. -/
def tok0 : Token :=
  { type := .KEY_VALUE, value := "!k:7", lineNumber := 0, style := some .COLON,
    key := some "!k", parsedValue := some (.vNum 7), depth := some 0 }

/-- A lexed header comment token declaring the META tag. -/
def tokMeta : Token :=
  { type := .HEADER, value := "# ~META~ SIEVE_OF_ERATOSTHENES_INVOKED", lineNumber := 0 }

/-- Does the lexed token stream carry a raw key with the `!` prime prefix?
(The textual sense of "the document contains a prime-prefixed key", read off
the tokens before the parser decides whether to record the prefix.) -/
def hasPrimePrefixedKeyToken (content : String) : Bool :=
  match tokenize content with
  | .ok ts => ts.any fun t => startsWithC ['!'] (chars (t.key.getD ""))
  | .error _ => false

/-- Entries cleared after the outer loop has processed all `d < I`. -/
def markedBelow (limit I k : Nat) : Prop :=
  k ≤ 1 ∨ ∃ d, 2 ≤ d ∧ d < I ∧ d * d ≤ k ∧ k ≤ limit ∧ d ∣ k

/-- Entries cleared by the finished sieve. -/
def markedAll (limit k : Nat) : Prop :=
  k ≤ 1 ∨ ∃ d, 2 ≤ d ∧ d * d ≤ k ∧ k ≤ limit ∧ d ∣ k

/-! ## Correctness of the primality tests

The loops are characterised by "returns `false` iff some tested candidate
divides `n`", by induction on the fuel; the endpoints are then settled with
`Nat.minFac`. -/

theorem prime_of_no_small_divisor {n : Nat} (h2 : 2 ≤ n)
    (h : ∀ d, 2 ≤ d → d * d ≤ n → ¬ d ∣ n) : Nat.Prime n := by
  by_contra hnp
  have hpd := Nat.minFac_dvd n
  have hpp := Nat.minFac_prime (n := n) (by omega)
  have hsq : n.minFac ^ 2 ≤ n := Nat.minFac_sq_le_self (by omega) hnp
  exact h n.minFac hpp.two_le (by nlinarith) hpd

theorem no_small_divisor_of_prime {n d : Nat} (hp : Nat.Prime n)
    (hd2 : 2 ≤ d) (hdd : d * d ≤ n) : ¬ d ∣ n := by
  intro hdvd
  rcases (hp.eq_one_or_self_of_dvd d hdvd) with h | h
  · omega
  · subst h
    nlinarith [hp.two_le]

theorem simpleAux_false_iff (n : Nat) :
    ∀ fuel i, 1 ≤ i → n < (i + fuel) * (i + fuel) →
    (simpleAux n fuel i = false ↔ ∃ k, (i + k) * (i + k) ≤ n ∧ (i + k) ∣ n) := by
  intro fuel
  induction fuel with
  | zero =>
    intro i hi hlt
    simp only [simpleAux, true_iff, false_iff]
    constructor
    · intro h; cases h
    · rintro ⟨k, hk, -⟩; nlinarith
  | succ fuel ih =>
    intro i hi hlt
    simp only [simpleAux]
    by_cases h1 : i * i ≤ n
    · simp only [h1, if_true]
      by_cases h2 : n % i = 0
      · simp only [h2, if_true]
        constructor
        · intro _
          refine ⟨0, ?_, ?_⟩
          · simpa using h1
          · simpa using Nat.dvd_of_mod_eq_zero h2
        · intro _; trivial
      · simp only [h2, if_false]
        rw [ih (i + 1) (by omega) (by nlinarith)]
        constructor
        · rintro ⟨k, hk, hdvd⟩
          refine ⟨k + 1, ?_, ?_⟩
          · have e : i + (k + 1) = i + 1 + k := by omega
            rw [e]; exact hk
          · have e : i + (k + 1) = i + 1 + k := by omega
            rw [e]; exact hdvd
        · rintro ⟨k, hk, hdvd⟩
          match k with
          | 0 =>
            exfalso
            apply h2
            exact Nat.mod_eq_zero_of_dvd (by simpa using hdvd)
          | k + 1 =>
            refine ⟨k, ?_, ?_⟩
            · have e : i + 1 + k = i + (k + 1) := by omega
              rw [e]; exact hk
            · have e : i + 1 + k = i + (k + 1) := by omega
              rw [e]; exact hdvd
    · simp only [h1, if_false, true_iff, false_iff]
      constructor
      · intro h; cases h
      · rintro ⟨k, hk, -⟩; nlinarith

theorem trialLoop_false_iff (n : Nat) :
    ∀ fuel i, 1 ≤ i → n < (i + 2 * fuel) * (i + 2 * fuel) →
    (trialLoop n fuel i = false ↔ ∃ k, (i + 2 * k) * (i + 2 * k) ≤ n ∧ (i + 2 * k) ∣ n) := by
  intro fuel
  induction fuel with
  | zero =>
    intro i hi hlt
    simp only [trialLoop]
    constructor
    · intro h; cases h
    · rintro ⟨k, hk, -⟩; nlinarith
  | succ fuel ih =>
    intro i hi hlt
    simp only [trialLoop]
    by_cases h1 : i * i ≤ n
    · simp only [h1, if_true]
      by_cases h2 : n % i = 0
      · simp only [h2, if_true, true_iff]
        refine ⟨0, ?_, ?_⟩
        · simpa using h1
        · simpa using Nat.dvd_of_mod_eq_zero h2
      · simp only [h2, if_false]
        rw [ih (i + 2) (by omega) (by nlinarith)]
        constructor
        · rintro ⟨k, hk, hdvd⟩
          refine ⟨k + 1, ?_, ?_⟩
          · have e : i + 2 * (k + 1) = i + 2 + 2 * k := by omega
            rw [e]; exact hk
          · have e : i + 2 * (k + 1) = i + 2 + 2 * k := by omega
            rw [e]; exact hdvd
        · rintro ⟨k, hk, hdvd⟩
          match k with
          | 0 =>
            exfalso
            apply h2
            exact Nat.mod_eq_zero_of_dvd (by simpa using hdvd)
          | k + 1 =>
            refine ⟨k, ?_, ?_⟩
            · have e : i + 2 + 2 * k = i + 2 * (k + 1) := by omega
              rw [e]; exact hk
            · have e : i + 2 + 2 * k = i + 2 * (k + 1) := by omega
              rw [e]; exact hdvd
    · simp only [h1, if_false]
      constructor
      · intro h; cases h
      · rintro ⟨k, hk, -⟩; nlinarith

theorem parserPrimeLoop_false_iff (n : Nat) :
    ∀ fuel i, 1 ≤ i → n < (i + 6 * fuel) * (i + 6 * fuel) →
    (parserPrimeLoop n fuel i = false ↔
      ∃ k, (i + 6 * k) * (i + 6 * k) ≤ n ∧ ((i + 6 * k) ∣ n ∨ (i + 6 * k + 2) ∣ n)) := by
  intro fuel
  induction fuel with
  | zero =>
    intro i hi hlt
    simp only [parserPrimeLoop]
    constructor
    · intro h; cases h
    · rintro ⟨k, hk, -⟩; nlinarith
  | succ fuel ih =>
    intro i hi hlt
    simp only [parserPrimeLoop]
    by_cases h1 : i * i ≤ n
    · simp only [h1, if_true]
      by_cases h2 : n % i = 0 ∨ n % (i + 2) = 0
      · simp only [if_pos h2, true_iff]
        refine ⟨0, by simpa using h1, ?_⟩
        rcases h2 with h2 | h2
        · exact Or.inl (by simpa using Nat.dvd_of_mod_eq_zero h2)
        · exact Or.inr (by simpa using Nat.dvd_of_mod_eq_zero h2)
      · simp only [if_neg h2]
        rw [ih (i + 6) (by omega) (by nlinarith)]
        constructor
        · rintro ⟨k, hk, hdvd⟩
          refine ⟨k + 1, ?_, ?_⟩
          · have e : i + 6 * (k + 1) = i + 6 + 6 * k := by omega
            rw [e]; exact hk
          · have e : i + 6 * (k + 1) = i + 6 + 6 * k := by omega
            rw [e]; exact hdvd
        · rintro ⟨k, hk, hdvd⟩
          match k with
          | 0 =>
            exfalso
            apply h2
            simp only [Nat.mul_zero, Nat.add_zero] at hdvd
            rcases hdvd with h | h
            · exact Or.inl (Nat.mod_eq_zero_of_dvd h)
            · exact Or.inr (Nat.mod_eq_zero_of_dvd h)
          | k + 1 =>
            refine ⟨k, ?_, ?_⟩
            · have e : i + 6 + 6 * k = i + 6 * (k + 1) := by omega
              rw [e]; exact hk
            · have e : i + 6 + 6 * k = i + 6 * (k + 1) := by omega
              rw [e]; exact hdvd
    · simp only [h1, if_false]
      constructor
      · intro h; cases h
      · rintro ⟨k, hk, -⟩; nlinarith

/-- Turn a `= true ↔ p` characterisation into a `decide` equation. -/
theorem bool_eq_decide {b : Bool} {p : Prop} [Decidable p] (h : b = true ↔ p) :
    b = decide p := by
  cases b
  · simp only [false_eq_decide_iff]
    intro hp
    exact absurd (h.mpr hp) (by simp)
  · simp only [true_eq_decide_iff]
    exact h.mp rfl

theorem false_iff_prop {p : Prop} : (false = true ↔ p) ↔ ¬ p := by simp

theorem true_iff_prop {p : Prop} : (true = true ↔ p) ↔ p := by simp

theorem simpleIsPrimeNat_eq (n : Nat) : simpleIsPrimeNat n = decide (Nat.Prime n) := by
  apply bool_eq_decide
  unfold simpleIsPrimeNat
  by_cases hn : n ≤ 1
  · rw [if_pos hn]
    apply false_iff_prop.mpr
    intro hp
    have := hp.two_le
    omega
  · rw [if_neg hn]
    push_neg at hn
    have hchar := simpleAux_false_iff n n 2 (by omega) (by nlinarith)
    constructor
    · intro htrue
      apply prime_of_no_small_divisor (by omega)
      intro d hd2 hdd hdvd
      have : simpleAux n n 2 = false := by
        apply hchar.mpr
        refine ⟨d - 2, ?_, ?_⟩
        · have e : 2 + (d - 2) = d := by omega
          rw [e]; exact hdd
        · have e : 2 + (d - 2) = d := by omega
          rw [e]; exact hdvd
      rw [htrue] at this
      cases this
    · intro hp
      by_contra hfalse
      have : simpleAux n n 2 = false := by
        cases h : simpleAux n n 2
        · rfl
        · exact absurd h hfalse
      obtain ⟨k, hk, hdvd⟩ := hchar.mp this
      exact no_small_divisor_of_prime hp (by omega) hk hdvd

theorem simpleIsPrimeInt_eq (m : Int) :
    simpleIsPrimeInt m = decide (1 < m ∧ Nat.Prime m.toNat) := by
  unfold simpleIsPrimeInt
  by_cases hm : m ≤ 1
  · have hlt : ¬ (1 : Int) < m := by omega
    simp [hm, hlt]
  · rw [if_neg hm]
    push_neg at hm
    rw [simpleIsPrimeNat_eq]
    have hlt : (1 : Int) < m := hm
    simp [hlt]

theorem trialLoop_prime (n : Nat) (h3 : 3 ≤ n) (hodd : n % 2 = 1) :
    (trialLoop n n 3 = true ↔ Nat.Prime n) := by
  have hchar := trialLoop_false_iff n n 3 (by omega) (by nlinarith)
  constructor
  · intro htrue
    apply prime_of_no_small_divisor (by omega)
    intro d hd2 hdd hdvd
    have hd2' : d % 2 = 1 := by
      by_contra hmod
      have h2d : (2 : Nat) ∣ d := by omega
      have h2n : (2 : Nat) ∣ n := h2d.trans hdvd
      omega
    have hd3 : 3 ≤ d := by omega
    have : trialLoop n n 3 = false := by
      apply hchar.mpr
      refine ⟨(d - 3) / 2, ?_, ?_⟩
      · have e : 3 + 2 * ((d - 3) / 2) = d := by omega
        rw [e]; exact hdd
      · have e : 3 + 2 * ((d - 3) / 2) = d := by omega
        rw [e]; exact hdvd
    rw [htrue] at this
    cases this
  · intro hp
    by_contra hfalse
    have : trialLoop n n 3 = false := by
      cases h : trialLoop n n 3
      · rfl
      · exact absurd h hfalse
    obtain ⟨k, hk, hdvd⟩ := hchar.mp this
    exact no_small_divisor_of_prime hp (by omega) hk hdvd

theorem isPrimeByTrialDivision_eq (m : Int) :
    isPrimeByTrialDivision m = decide (2 ≤ m ∧ Nat.Prime m.toNat) := by
  apply bool_eq_decide
  unfold isPrimeByTrialDivision
  by_cases h1 : m < 2
  · rw [if_pos h1]
    apply false_iff_prop.mpr
    rintro ⟨h, -⟩; omega
  · rw [if_neg h1]
    push_neg at h1
    by_cases h2 : m = 2
    · subst h2
      rw [if_pos rfl]
      apply true_iff_prop.mpr
      refine ⟨by omega, ?_⟩
      have e : (2 : Int).toNat = 2 := rfl
      rw [e]
      norm_num
    · rw [if_neg h2]
      by_cases h3 : m % 2 = 0
      · rw [if_pos h3]
        apply false_iff_prop.mpr
        rintro ⟨-, hp⟩
        have htwo : m.toNat % 2 = 0 := by omega
        have hge : 3 ≤ m.toNat := by omega
        rcases hp.eq_two_or_odd with he | ho
        · omega
        · omega
      · rw [if_neg h3]
        have hge : 3 ≤ m.toNat := by omega
        have hodd : m.toNat % 2 = 1 := by omega
        rw [trialLoop_prime m.toNat hge hodd]
        constructor
        · intro hp; exact ⟨by omega, hp⟩
        · rintro ⟨-, hp⟩; exact hp

theorem parserLoop_prime (n : Nat) (h5 : 5 ≤ n) (h2 : n % 2 ≠ 0) (h3 : n % 3 ≠ 0) :
    (parserPrimeLoop n n 5 = true ↔ Nat.Prime n) := by
  have hchar := parserPrimeLoop_false_iff n n 5 (by omega) (by nlinarith)
  constructor
  · intro htrue
    apply prime_of_no_small_divisor (by omega)
    intro d hd2 hdd hdvd
    have hdmod2 : d % 2 ≠ 0 := by
      intro hmod
      have h2d : (2 : Nat) ∣ d := by omega
      have h2n : (2 : Nat) ∣ n := h2d.trans hdvd
      omega
    have hdmod3 : d % 3 ≠ 0 := by
      intro hmod
      have h3d : (3 : Nat) ∣ d := by omega
      have h3n : (3 : Nat) ∣ n := h3d.trans hdvd
      omega
    have hd6 : d % 6 = 1 ∨ d % 6 = 5 := by omega
    rcases hd6 with hd6 | hd6
    · -- d ≡ 1 (mod 6), so d ≥ 7 and d is tested as i + 2 for i = d - 2
      have hd7 : 7 ≤ d := by omega
      have : parserPrimeLoop n n 5 = false := by
        apply hchar.mpr
        refine ⟨(d - 7) / 6, ?_, Or.inr ?_⟩
        · have e : 5 + 6 * ((d - 7) / 6) = d - 2 := by omega
          rw [e]
          have hsub : (d - 2) * (d - 2) ≤ d * d := Nat.mul_le_mul (by omega) (by omega)
          omega
        · have e : 5 + 6 * ((d - 7) / 6) + 2 = d := by omega
          rw [e]; exact hdvd
      rw [htrue] at this
      cases this
    · have hd5 : 5 ≤ d := by omega
      have : parserPrimeLoop n n 5 = false := by
        apply hchar.mpr
        refine ⟨(d - 5) / 6, ?_, Or.inl ?_⟩
        · have e : 5 + 6 * ((d - 5) / 6) = d := by omega
          rw [e]; exact hdd
        · have e : 5 + 6 * ((d - 5) / 6) = d := by omega
          rw [e]; exact hdvd
      rw [htrue] at this
      cases this
  · intro hp
    by_contra hfalse
    have : parserPrimeLoop n n 5 = false := by
      cases h : parserPrimeLoop n n 5
      · rfl
      · exact absurd h hfalse
    obtain ⟨k, hk, hdvd⟩ := hchar.mp this
    rcases hdvd with hdvd | hdvd
    · exact no_small_divisor_of_prime hp (by omega) hk hdvd
    · rcases hp.eq_one_or_self_of_dvd _ hdvd with he | he
      · omega
      · nlinarith

theorem parserIsPrime_eq (q : ℚ) :
    parserIsPrime q = decide (q.den = 1 ∧ 1 < q.num ∧ Nat.Prime q.num.toNat) := by
  apply bool_eq_decide
  unfold parserIsPrime
  by_cases hb : q.den ≠ 1 ∨ q.num ≤ 1
  · rw [if_pos hb]
    apply false_iff_prop.mpr
    rintro ⟨hden, hnum, -⟩
    rcases hb with hb | hb
    · exact hb hden
    · omega
  · rw [if_neg hb]
    push_neg at hb
    obtain ⟨hden, hnum⟩ := hb
    by_cases h3 : q.num ≤ 3
    · rw [if_pos h3]
      apply true_iff_prop.mpr
      refine ⟨hden, hnum, ?_⟩
      have he : q.num = 2 ∨ q.num = 3 := by omega
      rcases he with he | he
      · have e : q.num.toNat = 2 := by omega
        rw [e]; norm_num
      · have e : q.num.toNat = 3 := by omega
        rw [e]; norm_num
    · rw [if_neg h3]
      by_cases h23 : q.num % 2 = 0 ∨ q.num % 3 = 0
      · rw [if_pos h23]
        apply false_iff_prop.mpr
        rintro ⟨-, -, hp⟩
        have h4 : 4 ≤ q.num.toNat := by omega
        rcases h23 with hm | hm
        · have hdvd : (2 : Nat) ∣ q.num.toNat := by omega
          rcases hp.eq_one_or_self_of_dvd _ hdvd with he | he <;> omega
        · have hdvd : (3 : Nat) ∣ q.num.toNat := by omega
          rcases hp.eq_one_or_self_of_dvd _ hdvd with he | he <;> omega
      · rw [if_neg h23]
        push_neg at h23
        obtain ⟨hm2, hm3⟩ := h23
        rw [parserLoop_prime q.num.toNat (by omega) (by omega) (by omega)]
        constructor
        · intro hp; exact ⟨hden, hnum, hp⟩
        · rintro ⟨-, -, hp⟩; exact hp

/-! ### Sieve of Eratosthenes correctness -/

theorem markMultiples_false_iff (i limit : Nat) (hi : 1 ≤ i) :
    ∀ fuel j s, limit + 1 ≤ j + fuel →
    ∀ k, (markMultiples i limit fuel j s k = false ↔
      ((∃ t, k = j + i * t) ∧ k ≤ limit) ∨ s k = false) := by
  intro fuel
  induction fuel with
  | zero =>
    intro j s hfuel k
    simp only [markMultiples]
    constructor
    · intro h; exact Or.inr h
    · rintro (⟨⟨t, ht⟩, hk⟩ | h)
      · exfalso
        have hjk : j ≤ k := by
          rw [ht]; exact Nat.le_add_right j (i * t)
        omega
      · exact h
  | succ fuel ih =>
    intro j s hfuel k
    simp only [markMultiples]
    by_cases hj : j ≤ limit
    · rw [if_pos hj]
      rw [ih (j + i) _ (by omega) k]
      unfold arraySet
      constructor
      · rintro (⟨⟨t, ht⟩, hk⟩ | h)
        · refine Or.inl ⟨⟨t + 1, ?_⟩, hk⟩
          rw [ht]; ring
        · by_cases hkj : k = j
          · subst hkj
            exact Or.inl ⟨⟨0, by ring⟩, hj⟩
          · rw [if_neg hkj] at h
            exact Or.inr h
      · rintro (⟨⟨t, ht⟩, hk⟩ | h)
        · match t with
          | 0 =>
            have hkj : k = j := by simpa using ht
            right
            rw [if_pos hkj]
          | t + 1 =>
            refine Or.inl ⟨⟨t, ?_⟩, hk⟩
            rw [ht]; ring
        · right
          by_cases hkj : k = j
          · rw [if_pos hkj]
          · rw [if_neg hkj]; exact h
    · rw [if_neg hj]
      constructor
      · intro h; exact Or.inr h
      · rintro (⟨⟨t, ht⟩, hk⟩ | h)
        · exfalso
          have hjk : j ≤ k := by
            rw [ht]; exact Nat.le_add_right j (i * t)
          omega
        · exact h

theorem markedBelow_iff_all (limit i k : Nat) (hstop : limit < i * i) :
    markedBelow limit i k ↔ markedAll limit k := by
  unfold markedBelow markedAll
  constructor
  · rintro (h | ⟨d, hd2, -, hdk, hkl, hdvd⟩)
    · exact Or.inl h
    · exact Or.inr ⟨d, hd2, hdk, hkl, hdvd⟩
  · rintro (h | ⟨d, hd2, hdk, hkl, hdvd⟩)
    · exact Or.inl h
    · refine Or.inr ⟨d, hd2, ?_, hdk, hkl, hdvd⟩
      by_contra hdi
      push_neg at hdi
      have : i * i ≤ d * d := Nat.mul_le_mul hdi hdi
      omega

theorem sieveLoop_false_iff (limit : Nat) :
    ∀ fuel i s, 2 ≤ i → limit < (i + fuel) * (i + fuel) →
    (∀ k, s k = false ↔ markedBelow limit i k) →
    ∀ k, (sieveLoop limit fuel i s k = false ↔ markedAll limit k) := by
  intro fuel
  induction fuel with
  | zero =>
    intro i s hi2 hlt hinv k
    simp only [sieveLoop]
    rw [hinv k, markedBelow_iff_all limit i k (by nlinarith)]
  | succ fuel ih =>
    intro i s hi2 hlt hinv k
    simp only [sieveLoop]
    by_cases hii : i * i ≤ limit
    · rw [if_pos hii]
      apply ih (i + 1) _ (by omega) (by nlinarith)
      intro k'
      by_cases hsi : s i = true
      · rw [if_pos hsi]
        rw [markMultiples_false_iff i limit (by omega) (limit + 1) (i * i) s (by omega) k']
        unfold markedBelow
        constructor
        · rintro (⟨⟨t, ht⟩, hk⟩ | hfalse)
          · refine Or.inr ⟨i, hi2, by omega, ?_, hk, ?_⟩
            · rw [ht]; exact Nat.le_add_right _ _
            · exact ⟨i + t, by rw [ht]; ring⟩
          · rcases (hinv k').mp hfalse with h | ⟨d, hd2, hdi, hdk, hkl, hdvd⟩
            · exact Or.inl h
            · exact Or.inr ⟨d, hd2, by omega, hdk, hkl, hdvd⟩
        · rintro (h | ⟨d, hd2, hdi, hdk, hkl, hdvd⟩)
          · exact Or.inr ((hinv k').mpr (Or.inl h))
          · by_cases hdi' : d < i
            · exact Or.inr ((hinv k').mpr (Or.inr ⟨d, hd2, hdi', hdk, hkl, hdvd⟩))
            · have hde : d = i := by omega
              subst hde
              obtain ⟨m, hm⟩ := hdvd
              have him : d ≤ m := by
                have := hdk
                rw [hm] at this
                exact Nat.le_of_mul_le_mul_left this (by omega)
              refine Or.inl ⟨⟨m - d, ?_⟩, hkl⟩
              rw [hm, ← Nat.mul_add]
              congr 1
              omega
      · have hsi' : s i = false := by
          cases h : s i
          · rfl
          · exact absurd h hsi
        rw [if_neg hsi]
        rcases (hinv i).mp hsi' with h | ⟨e, he2, hei, hee, -, hedvd⟩
        · omega
        · rw [hinv k']
          unfold markedBelow
          constructor
          · rintro (h | ⟨d, hd2, hdi, hdk, hkl, hdvd⟩)
            · exact Or.inl h
            · exact Or.inr ⟨d, hd2, by omega, hdk, hkl, hdvd⟩
          · rintro (h | ⟨d, hd2, hdi, hdk, hkl, hdvd⟩)
            · exact Or.inl h
            · by_cases hdi' : d < i
              · exact Or.inr ⟨d, hd2, hdi', hdk, hkl, hdvd⟩
              · have hde : d = i := by omega
                subst hde
                refine Or.inr ⟨e, he2, hei, ?_, hkl, hedvd.trans hdvd⟩
                have hik : d ≤ k' := by
                  have : d ≤ d * d := Nat.le_mul_of_pos_left d (by omega)
                  omega
                omega
    · rw [if_neg hii]
      push_neg at hii
      rw [hinv k, markedBelow_iff_all limit i k hii]

theorem generateSieve_false_iff (limit : Nat) (k : Nat) :
    generateSieve limit k = false ↔ markedAll limit k := by
  unfold generateSieve
  apply sieveLoop_false_iff limit (limit + 1) 2 _ (by omega) (by nlinarith)
  intro k'
  unfold arraySet markedBelow
  constructor
  · intro h
    by_cases h1 : k' = 1
    · exact Or.inl (by omega)
    · rw [if_neg h1] at h
      by_cases h0 : k' = 0
      · exact Or.inl (by omega)
      · rw [if_neg h0] at h
        cases h
  · rintro (h | ⟨d, hd2, hdi, -, -, -⟩)
    · have : k' = 0 ∨ k' = 1 := by omega
      rcases this with h' | h' <;> subst h' <;> simp
    · omega

theorem generateSieve_eq (limit : Nat) (n : Nat) (hn : n ≤ limit) :
    generateSieve limit n = decide (Nat.Prime n) := by
  apply bool_eq_decide
  by_cases h2 : 2 ≤ n
  · constructor
    · intro htrue
      apply prime_of_no_small_divisor h2
      intro d hd2 hdd hdvd
      have : generateSieve limit n = false :=
        (generateSieve_false_iff limit n).mpr (Or.inr ⟨d, hd2, hdd, hn, hdvd⟩)
      rw [htrue] at this
      cases this
    · intro hp
      by_contra hfalse
      have hfalse' : generateSieve limit n = false := by
        cases h : generateSieve limit n
        · rfl
        · exact absurd h hfalse
      rcases (generateSieve_false_iff limit n).mp hfalse' with h | ⟨d, hd2, hdd, -, hdvd⟩
      · omega
      · exact no_small_divisor_of_prime hp hd2 hdd hdvd
  · constructor
    · intro htrue
      exfalso
      have : generateSieve limit n = false :=
        (generateSieve_false_iff limit n).mpr (Or.inl (by omega))
      rw [htrue] at this
      cases this
    · intro hp
      have := hp.two_le
      omega

theorem sieveCache_eq (n : Nat) (hn : n ≤ SIEVE_LIMIT) :
    sieveCache n = decide (Nat.Prime n) := by
  unfold sieveCache
  exact generateSieve_eq SIEVE_LIMIT n hn

/-- `isPrime` is extensionally the integer-primality test (the sieve and the
trial division agree with `Nat.Prime` on their respective ranges). -/
theorem isPrime_eq (q : ℚ) :
    isPrime q = decide (q.den = 1 ∧ 1 < q.num ∧ Nat.Prime q.num.toNat) := by
  apply bool_eq_decide
  unfold isPrime
  by_cases hb : q.den ≠ 1 ∨ q < 0
  · rw [if_pos hb]
    apply false_iff_prop.mpr
    rintro ⟨hden, hnum, -⟩
    rcases hb with hb | hb
    · exact hb hden
    · have : ¬ (0 : ℚ) ≤ q := not_le.mpr hb
      rw [← Rat.num_nonneg] at this
      omega
  · rw [if_neg hb]
    push_neg at hb
    obtain ⟨hden, hpos⟩ := hb
    have hnum0 : 0 ≤ q.num := Rat.num_nonneg.mpr hpos
    by_cases hle : q.num ≤ (SIEVE_LIMIT : Int)
    · rw [if_pos hle]
      rw [sieveCache_eq q.num.toNat (by unfold SIEVE_LIMIT at hle ⊢; omega)]
      constructor
      · intro hd
        have hp : Nat.Prime q.num.toNat := of_decide_eq_true hd
        have := hp.two_le
        exact ⟨hden, by omega, hp⟩
      · rintro ⟨-, -, hp⟩
        exact decide_eq_true hp
    · rw [if_neg hle]
      push_neg at hle
      rw [isPrimeByTrialDivision_eq]
      constructor
      · intro hd
        have hp := of_decide_eq_true hd
        refine ⟨hden, ?_, hp.2⟩
        unfold SIEVE_LIMIT at hle
        omega
      · rintro ⟨-, -, hp⟩
        apply decide_eq_true
        refine ⟨?_, hp⟩
        unfold SIEVE_LIMIT at hle
        omega

/-- The two primality tests of the code base agree on every number. -/
theorem parserIsPrime_eq_isPrime (q : ℚ) : parserIsPrime q = isPrime q := by
  rw [parserIsPrime_eq, isPrime_eq]

/-- On integer-valued rationals, `isPrime` agrees with the sieve-free test. -/
theorem isPrime_intCast (n : Int) : isPrime (n : ℚ) = simpleIsPrimeInt n := by
  rw [isPrime_eq, simpleIsPrimeInt_eq]
  simp [Rat.den_intCast, Rat.num_intCast]

mutual
theorem containsPrime_eq_simple : ∀ v : Value, containsPrime v = simpleContainsPrime v
  | .vNull => rfl
  | .vUndef => rfl
  | .vBool _ => rfl
  | .vNum n => by
    simp only [containsPrime, simpleContainsPrime]
    exact isPrime_intCast n
  | .vStr _ => rfl
  | .vArr xs => by
    simp only [containsPrime, simpleContainsPrime]
    exact containsPrimeList_eq_simple xs
  | .vObj es => by
    simp only [containsPrime, simpleContainsPrime]
    exact containsPrimeEntries_eq_simple es

theorem containsPrimeList_eq_simple :
    ∀ xs : ValueList, containsPrimeList xs = simpleContainsPrimeList xs
  | .nil => rfl
  | .cons x xs => by
    simp only [containsPrimeList, simpleContainsPrimeList]
    rw [containsPrime_eq_simple x, containsPrimeList_eq_simple xs]

theorem containsPrimeEntries_eq_simple :
    ∀ es : EntryList, containsPrimeEntries es = simpleContainsPrimeEntries es
  | .nil => rfl
  | .cons _ v es => by
    simp only [containsPrimeEntries, simpleContainsPrimeEntries]
    rw [containsPrime_eq_simple v, containsPrimeEntries_eq_simple es]
end

theorem containsPrime_funext : containsPrime = simpleContainsPrime :=
  funext containsPrime_eq_simple

/-- Evaluation form of the encoder: the sieve-backed prime test may be replaced
by the extensionally equal kernel-friendly one. -/
theorem jsonToRoml_eval : jsonToRoml = jsonToRomlCore simpleContainsPrime := by
  unfold jsonToRoml
  rw [containsPrime_funext]

/-! ## Claim theorems -/

/-- C8: `encode` is deterministic — two calls on the same value produce
byte-identical output, and the output is independent of the options record
(which carries the only external `seed`); no clock is consulted (the encoder
is a pure function of its argument). -/
theorem c8_encode_deterministic :
    (∀ v : Value, jsonToRoml v = jsonToRoml v) ∧
    (∀ (v : Value) (o1 o2 : RomlOptions), fromJSONContent v o1 = fromJSONContent v o2) := by
  exact ⟨fun _ => rfl, fun _ _ _ => rfl⟩

/-- C10: the decoder-side primality test (`RomlParser.isPrime`, 6k±1 trial
division) and the encoder-side test (`primeUtils.isPrime`, sieve below 10000
plus odd trial division above) return the same boolean on every number. -/
theorem c10_prime_tests_agree : ∀ q : ℚ, parserIsPrime q = isPrime q :=
  parserIsPrime_eq_isPrime

/-- C1 (failing input): the round-trip law fails on `["a||b"]` — the encoder
leaves the `||` inside the string unquoted in the `PIPES` wrapper line, and the
decoder re-splits it, returning `["a","b"]` with no error. -/
theorem c1_roundtrip_failure :
    jsonToRoml (.vArr (.cons (.vStr "a||b") .nil)) = "~ROML~\n_items||a||b||" ∧
    romlDecode (jsonToRoml (.vArr (.cons (.vStr "a||b") .nil))) =
      { data := .vArr (.cons (.vStr "a") (.cons (.vStr "b") .nil)),
        errors := [], metaTagPresent := false, primesDetected := false } ∧
    Value.vArr (.cons (.vStr "a") (.cons (.vStr "b") .nil)) ≠
      .vArr (.cons (.vStr "a||b") .nil) := by
  rw [jsonToRoml_eval]
  exact ⟨rfl, rfl, by decide⟩

/-- C7 (failing input): a line ending in a lone `|` is not "silently skipped" —
the pipe-array regex's stray `\|$` alternative makes the lexer throw a
`TypeError`, the catch-all stores its `error.message` as an error entry, and
the sibling line `b=1` is lost (`data = {}`); without the bad line the same
document decodes to `{"b":1}`. -/
theorem c7_unparseable_line_fatal :
    romlDecode "~ROML~\nb=1\na|" =
      { data := .vObj .nil,
        errors := ["Cannot read properties of undefined (reading 'includes')"],
        metaTagPresent := false, primesDetected := false } ∧
    romlDecode "~ROML~\nb=1" =
      { data := .vObj (.cons "b" (.vNum 1) .nil), errors := [],
        metaTagPresent := false, primesDetected := false } := by
  exact ⟨rfl, by decide⟩

/-- C2 (counterexample): in `encode({"name":"Robert","age":7})` the `name`
line is NOT rendered with its personal-category style.  `name` is in the
personal category (`getSemanticStyle` maps it to `QUOTED`), but the prime
marker occupies counter slot 1, `name` lands on even counter 2, and semantic
categories apply only on odd counters — the encoder emits plain `name=Robert`
(`EQUALS`). -/
theorem c2_counterexample :
    jsonToRoml robertInput =
      "~ROML~\n# ~META~ SIEVE_OF_ERATOSTHENES_INVOKED\nname=Robert\n&!age&7" ∧
    getSemanticStyle "name" = some .QUOTED ∧
    selectStyle "name" (.vStr "Robert") ⟨0, 2⟩
      (analyzeLineFeatures containsPrime "name" (.vStr "Robert") ⟨0, 2⟩) = .EQUALS ∧
    StyleChoice.EQUALS ≠ .QUOTED := by
  rw [jsonToRoml_eval, containsPrime_funext]
  exact ⟨rfl, rfl, rfl, by decide⟩

/-- C2 (amended): `encode({"name":"Robert","age":7})` produces the header, the
prime-marker comment, `name=Robert` (even-counter `EQUALS` style: the marker
shifts `name` to counter 2, where semantic categories do not apply), and
`&!age&7` (prime prefix and the odd-counter `AMPERSAND` numeric style); decode
of that exact text returns the input with an empty error list. -/
theorem c2_amended :
    jsonToRoml robertInput =
      "~ROML~\n# ~META~ SIEVE_OF_ERATOSTHENES_INVOKED\nname=Robert\n&!age&7" ∧
    romlDecode (jsonToRoml robertInput) =
      { data := robertInput, errors := [], metaTagPresent := true, primesDetected := true } := by
  rw [jsonToRoml_eval]
  exact ⟨rfl, by decide⟩

/-! ### Bridges between the code's prime tests and the spec-level predicate -/

theorem simpleIsPrimeInt_eq_spec (n : Int) :
    simpleIsPrimeInt n = decide (Nat.Prime n.toNat) := by
  rw [simpleIsPrimeInt_eq]
  by_cases hp : Nat.Prime n.toNat
  · have h2 := hp.two_le
    have h1 : 1 < n := by omega
    simp [hp, h1]
  · simp [hp]

mutual
theorem simpleContainsPrime_eq_spec :
    ∀ v : Value, simpleContainsPrime v = specContainsPrime v
  | .vNull => rfl
  | .vUndef => rfl
  | .vBool _ => rfl
  | .vNum n => by
    simp only [simpleContainsPrime, specContainsPrime]
    exact simpleIsPrimeInt_eq_spec n
  | .vStr _ => rfl
  | .vArr xs => by
    simp only [simpleContainsPrime, specContainsPrime]
    exact simpleContainsPrimeList_eq_spec xs
  | .vObj es => by
    simp only [simpleContainsPrime, specContainsPrime]
    exact simpleContainsPrimeEntries_eq_spec es

theorem simpleContainsPrimeList_eq_spec :
    ∀ xs : ValueList, simpleContainsPrimeList xs = specContainsPrimeList xs
  | .nil => rfl
  | .cons x xs => by
    simp only [simpleContainsPrimeList, specContainsPrimeList]
    rw [simpleContainsPrime_eq_spec x, simpleContainsPrimeList_eq_spec xs]

theorem simpleContainsPrimeEntries_eq_spec :
    ∀ es : EntryList, simpleContainsPrimeEntries es = specContainsPrimeEntries es
  | .nil => rfl
  | .cons _ v es => by
    simp only [simpleContainsPrimeEntries, specContainsPrimeEntries]
    rw [simpleContainsPrime_eq_spec v, simpleContainsPrimeEntries_eq_spec es]
end

theorem containsPrime_eq_spec (v : Value) : containsPrime v = specContainsPrime v :=
  (containsPrime_eq_simple v).trans (simpleContainsPrime_eq_spec v)

theorem objectContainsPrimesWith_spec :
    ∀ es : EntryList, objectContainsPrimesWith containsPrime es = specContainsPrimeEntries es
  | .nil => rfl
  | .cons _ v es => by
    simp only [objectContainsPrimesWith, specContainsPrimeEntries]
    rw [containsPrime_eq_spec v, objectContainsPrimesWith_spec es]

theorem wrapperItemsPrime_spec :
    ∀ xs : ValueList, wrapperItemsPrime containsPrime xs = specContainsPrimeList xs
  | .nil => rfl
  | .cons item rest => by
    simp only [wrapperItemsPrime, specContainsPrimeList]
    rw [wrapperItemsPrime_spec rest]
    congr 1
    cases item with
    | vObj es => exact objectContainsPrimesWith_spec es
    | vNull => exact containsPrime_eq_spec _
    | vUndef => exact containsPrime_eq_spec _
    | vBool b => exact containsPrime_eq_spec _
    | vNum n => exact containsPrime_eq_spec _
    | vStr s => exact containsPrime_eq_spec _
    | vArr ys => exact containsPrime_eq_spec _

theorem wrapperAwarePrimes_spec :
    ∀ es : EntryList, wrapperAwarePrimes containsPrime es = specObjEntries es
  | .nil => rfl
  | .cons key value rest => by
    simp only [wrapperAwarePrimes, specObjEntries, isSyntheticWrapperKey]
    by_cases hk : (key == "_items" || key == "_value") = true
    case pos =>
      rw [if_pos hk, if_pos hk]
      cases value with
      | vArr xs =>
        cases hc : anyComplexItem xs <;> simp [hc, wrapperItemsPrime_spec xs]
      | vObj es2 => exact objectContainsPrimesWith_spec es2
      | vNull => exact wrapperAwarePrimes_spec rest
      | vUndef => exact wrapperAwarePrimes_spec rest
      | vBool b => exact wrapperAwarePrimes_spec rest
      | vNum n => exact wrapperAwarePrimes_spec rest
      | vStr s => exact wrapperAwarePrimes_spec rest
    case neg =>
      rw [if_neg hk, if_neg hk]
      have hone : objectContainsPrimesWith containsPrime (.cons key value .nil) =
          specContainsPrime value := by
        simp only [objectContainsPrimesWith]
        rw [containsPrime_eq_spec value]
        simp
      rw [hone]
      cases hv : specContainsPrime value <;> simp [hv, wrapperAwarePrimes_spec rest]

theorem wrapperAwarePrimes_wrapData (v : Value) :
    wrapperAwarePrimes containsPrime (wrapData v) = specHeaderPrimes v := by
  cases v with
  | vObj es => exact wrapperAwarePrimes_spec es
  | vArr xs =>
    show wrapperAwarePrimes containsPrime (.cons "_items" (.vArr xs) .nil) = _
    simp only [wrapperAwarePrimes, specHeaderPrimes, isSyntheticWrapperKey]
    cases hc : anyComplexItem xs <;> simp [hc, wrapperItemsPrime_spec xs]
  | vNull => rfl
  | vUndef => rfl
  | vBool b => rfl
  | vNum n => rfl
  | vStr s => rfl

/-- C9: `isPrime` returns false on every non-integer and every negative input
(hence on 0 and 1 by the prime characterization); on integers `0 ≤ n ≤ 10000`
it answers from the cached Sieve of Eratosthenes; on integers `n > 10000` it
answers by odd trial division up to `√n`; and in all cases the answer is true
exactly for the prime natural numbers. -/
theorem c9_isPrime_spec :
    (∀ q : ℚ, (q.den ≠ 1 ∨ q < 0) → isPrime q = false) ∧
    (∀ n : Int, 0 ≤ n → n ≤ (SIEVE_LIMIT : Int) → isPrime (n : ℚ) = sieveCache n.toNat) ∧
    (∀ n : Int, (SIEVE_LIMIT : Int) < n → isPrime (n : ℚ) = isPrimeByTrialDivision n) ∧
    (∀ q : ℚ, isPrime q = true ↔ ∃ p : ℕ, Nat.Prime p ∧ q = (p : ℚ)) := by
  refine ⟨?_, ?_, ?_, ?_⟩
  · intro q h
    unfold isPrime
    exact if_pos h
  · intro n h0 hle
    have hden : ((n : ℚ)).den = 1 := Rat.den_intCast n
    have hnum : ((n : ℚ)).num = n := Rat.num_intCast n
    have hneg : ¬ ((n : ℚ).den ≠ 1 ∨ (n : ℚ) < 0) := by
      push_neg
      exact ⟨hden, by exact_mod_cast h0⟩
    unfold isPrime
    rw [if_neg hneg, hnum, if_pos hle]
  · intro n hgt
    have hden : ((n : ℚ)).den = 1 := Rat.den_intCast n
    have hnum : ((n : ℚ)).num = n := Rat.num_intCast n
    have h0 : (0 : Int) ≤ n := by
      have : (0 : Int) ≤ (SIEVE_LIMIT : Int) := by positivity
      omega
    have hneg : ¬ ((n : ℚ).den ≠ 1 ∨ (n : ℚ) < 0) := by
      push_neg
      exact ⟨hden, by exact_mod_cast h0⟩
    have hnle : ¬ ((n : ℚ).num ≤ (SIEVE_LIMIT : Int)) := by
      rw [hnum]; omega
    unfold isPrime
    rw [if_neg hneg, if_neg hnle, hnum]
  · intro q
    rw [isPrime_eq]
    simp only [decide_eq_true_eq]
    constructor
    · rintro ⟨hden, hnum, hp⟩
      refine ⟨q.num.toNat, hp, ?_⟩
      have hq : ((q.num : ℚ)) = q := (Rat.den_eq_one_iff q).mp hden
      rw [← hq]
      have he : ((q.num.toNat : ℕ) : ℤ) = q.num := by omega
      exact_mod_cast (congrArg (fun z : ℤ => (z : ℚ)) he).symm
    · rintro ⟨p, hp, rfl⟩
      have h2 := hp.two_le
      refine ⟨Rat.den_natCast p, ?_, ?_⟩
      · rw [Rat.num_natCast]; exact_mod_cast h2
      · rw [Rat.num_natCast]
        simpa using hp

theorem c9_isPrime_spec_witness :
    (((-1 : ℚ)).den ≠ 1 ∨ (-1 : ℚ) < 0) ∧ isPrime (-1 : ℚ) = false ∧
    ((0 : Int) ≤ 7 ∧ (7 : Int) ≤ (SIEVE_LIMIT : Int)) ∧
    isPrime ((7 : Int) : ℚ) = sieveCache ((7 : Int).toNat) ∧
    (SIEVE_LIMIT : Int) < 10007 ∧
    isPrime ((10007 : Int) : ℚ) = isPrimeByTrialDivision 10007 ∧
    isPrime ((7 : ℕ) : ℚ) = true :=
  ⟨Or.inr (by norm_num),
   c9_isPrime_spec.1 (-1) (Or.inr (by norm_num)),
   ⟨by norm_num, by norm_num [SIEVE_LIMIT]⟩,
   c9_isPrime_spec.2.1 7 (by norm_num) (by norm_num [SIEVE_LIMIT]),
   by norm_num [SIEVE_LIMIT],
   c9_isPrime_spec.2.2.1 10007 (by norm_num [SIEVE_LIMIT]),
   (c9_isPrime_spec.2.2.2 ((7 : ℕ) : ℚ)).mpr ⟨7, by norm_num, rfl⟩⟩

/-- C3 (counterexample): special values are NOT rendered `FAKE_COMMENT`(odd) /
`DOLLAR`(even).  Before style selection the encoder replaces `null` by the
marker string `"__NULL__"`, so `selectSyntax` takes its string branch and the
special-value branch is unreachable: at an even counter the non-vowel key `b`
gets `EQUALS` (`b=__NULL__`), not `DOLLAR`; at an odd counter the vowel key `e`
gets `QUOTED` (`e="__NULL__"`), not `FAKE_COMMENT`. -/
theorem c3_counterexample :
    jsonToRoml (.vObj (.cons "a" (.vNum 1) (.cons "b" .vNull .nil))) =
      "~ROML~\n&a&1\nb=__NULL__" ∧
    selectStyle "b" (specialMarker .vNull) ⟨0, 2⟩
      (analyzeLineFeatures containsPrime "b" .vNull ⟨0, 2⟩) = .EQUALS ∧
    StyleChoice.EQUALS ≠ .DOLLAR ∧
    jsonToRoml (.vObj (.cons "e" .vNull .nil)) = "~ROML~\ne=\"__NULL__\"" ∧
    selectStyle "e" (specialMarker .vNull) ⟨0, 1⟩
      (analyzeLineFeatures containsPrime "e" .vNull ⟨0, 1⟩) = .QUOTED ∧
    StyleChoice.QUOTED ≠ .FAKE_COMMENT := by
  rw [jsonToRoml_eval, containsPrime_funext]
  exact ⟨rfl, rfl, by decide, rfl, rfl, by decide⟩

/-- C3 (amended): for a key whose value is `null`, `undefined`, or the empty
string and to which no semantic-category rule applies, the encoder (which
substitutes the marker string before style selection, landing in the string
branch) renders with `QUOTED` (vowel key) or `FAKE_COMMENT` on odd counters,
and with `TILDE` (vowel key) or `EQUALS` on even counters; `DOLLAR` never
occurs. -/
theorem c3_amended :
    ∀ (cp : Value → Bool) (key : String) (v : Value) (ctx : Ctx),
      (v = .vNull ∨ v = .vUndef ∨ v = .vStr "") →
      getSemanticStyle key = none →
      selectStyle key (specialMarker v) ctx (analyzeLineFeatures cp key v ctx) =
        (if ctx.lineNumber % 2 == 0 then
          (if (analyzeLineFeatures cp key v ctx).keyStartsWithVowel then StyleChoice.TILDE
           else .EQUALS)
         else
          (if (analyzeLineFeatures cp key v ctx).keyStartsWithVowel then StyleChoice.QUOTED
           else .FAKE_COMMENT)) := by
  intro cp key v ctx hv hsem
  have hlf : (analyzeLineFeatures cp key v ctx).hasLongString = false := by
    rcases hv with rfl | rfl | rfl <;> simp [analyzeLineFeatures]
  rcases hv with rfl | rfl | rfl <;>
    simp only [selectStyle, specialMarker, hsem, hlf, Bool.false_eq_true, if_false]

theorem c3_amended_witness :
    getSemanticStyle "k" = none ∧
    selectStyle "k" (specialMarker .vNull) ⟨0, 2⟩
      (analyzeLineFeatures simpleContainsPrime "k" .vNull ⟨0, 2⟩) = .EQUALS := by
  have h := c3_amended simpleContainsPrime "k" .vNull ⟨0, 2⟩ (Or.inl rfl) rfl
  exact ⟨rfl, h.trans (by decide)⟩

/-- C4 (counterexample): `encode([2])` contains a prime (`2`, inside the
array), yet the document carries no prime-marker header comment — the
wrapper-key scan ignores a wrapper array with only primitive items, so
primitive arrays (and bare primitives) under the synthetic root wrapper never
produce the marker. -/
theorem c4_counterexample :
    jsonToRoml (.vArr (.cons (.vNum 2) .nil)) = "~ROML~\n_items||2||" ∧
    specContainsPrime (.vArr (.cons (.vNum 2) .nil)) = true ∧
    containsC (chars metaTagLine) (chars (jsonToRoml (.vArr (.cons (.vNum 2) .nil)))) = false := by
  rw [jsonToRoml_eval]
  exact ⟨rfl, by decide, by decide⟩

/-- C4 (amended): the marker comment appears exactly when the wrapper-aware
scan `specHeaderPrimes` holds: map roots are scanned entry-wise with wrapper
keys treated specially, array roots count only when they contain object/array
items and recursively hold a prime, and primitive roots never produce the
marker.  Equivalently, the encoded document is the header (with the marker iff
`specHeaderPrimes`) followed by the body rendered from the wrapped data. -/
theorem c4_amended :
    ∀ v : Value,
      jsonToRoml v =
        (if specHeaderPrimes v then "~ROML~\n" ++ metaTagLine else "~ROML~") ++ "\n" ++
          convertRoot containsPrime (wrapData v) (if specHeaderPrimes v then 2 else 1) := by
  intro v
  show jsonToRomlCore containsPrime v = _
  simp only [jsonToRomlCore]
  rw [wrapperAwarePrimes_wrapData]
  cases h : specHeaderPrimes v
  · simp only [h, Bool.false_eq_true, if_false]
    rfl
  · simp only [h, if_true]
    rfl

theorem validatePrime_primesDetected (st : PState) :
    (validatePrimeConsistency st).primesDetected = st.primesDetected := by
  cases h1 : (st.primesDetected && !st.metaTagPresent) <;>
    cases h2 : (st.metaTagPresent && !st.primesDetected) <;>
      simp [validatePrimeConsistency, h1, h2]

theorem validatePrime_metaTagPresent (st : PState) :
    (validatePrimeConsistency st).metaTagPresent = st.metaTagPresent := by
  cases h1 : (st.primesDetected && !st.metaTagPresent) <;>
    cases h2 : (st.metaTagPresent && !st.primesDetected) <;>
      simp [validatePrimeConsistency, h1, h2]

theorem validatePrime_missing (st : PState) (h1 : st.primesDetected = true)
    (h2 : st.metaTagPresent = false) :
    missingMetaMsg ∈ (validatePrimeConsistency st).errors := by
  simp [validatePrimeConsistency, h1, h2]

theorem validatePrime_declares (st : PState) (h1 : st.metaTagPresent = true)
    (h2 : st.primesDetected = false) :
    declaresMetaMsg ∈ (validatePrimeConsistency st).errors := by
  simp [validatePrimeConsistency, h1, h2]

theorem romlParse_errors (tokens : List Token) :
    (romlParse tokens).errors = (validatePrimeConsistency (preParseState tokens)).errors := rfl

theorem romlParse_primes (tokens : List Token) :
    (romlParse tokens).primesDetected =
      (validatePrimeConsistency (preParseState tokens)).primesDetected := rfl

theorem romlParse_meta (tokens : List Token) :
    (romlParse tokens).metaTagPresent =
      (validatePrimeConsistency (preParseState tokens)).metaTagPresent := rfl

/-- C6 (counterexample): "contains at least one prime-prefixed key" does not
imply the missing-META error.  The document `~ROML~\n!k=__UNDEFINED__` lexes
to a token with the prime-prefixed raw key `!k` and carries no marker
comment, yet decoding returns an EMPTY errors list: `parseKeyValue` drops a
token whose parsed value is `undefined` before `checkPrimePrefix` records the
prefix.  The crash document `~ROML~\n!b=1\na|` likewise has a prime-prefixed
key and no marker, but its only error is the lexer's TypeError message. -/
theorem c6_counterexample :
    hasPrimePrefixedKeyToken "~ROML~\n!k=__UNDEFINED__" = true ∧
    containsC (chars metaTagLine) (chars "~ROML~\n!k=__UNDEFINED__") = false ∧
    romlDecode "~ROML~\n!k=__UNDEFINED__" =
      { data := .vObj .nil, errors := [], metaTagPresent := false,
        primesDetected := false } ∧
    hasPrimePrefixedKeyToken "~ROML~\n!b=1\na|" = false ∧
    containsC (chars "\n!") (chars "~ROML~\n!b=1\na|") = true ∧
    romlDecode "~ROML~\n!b=1\na|" =
      { data := .vObj .nil,
        errors := ["Cannot read properties of undefined (reading 'includes')"],
        metaTagPresent := false, primesDetected := false } ∧
    "Cannot read properties of undefined (reading 'includes')" ≠ missingMetaMsg := by
  exact ⟨by decide, by decide, rfl, by decide, by decide, rfl, by decide⟩

set_option maxRecDepth 4000 in
/-- C6 (amended): whenever the parser RECORDS a prime-prefixed key (a `!`
prefix on a token whose value parses to a defined value — prefixes on
undefined-valued tokens, and documents the lexer throws on, are never
recorded) but no META tag is present, the "missing tag" message is among the
returned errors; whenever the META tag is present but no prime-prefixed key
was recorded, the "declares but contains none" message is; and on the two
concrete fixture documents decoding still returns the fully populated
best-effort value alongside exactly that error. -/
theorem c6_prime_meta_consistency :
    (∀ tokens : List Token,
        (romlParse tokens).primesDetected = true →
        (romlParse tokens).metaTagPresent = false →
        missingMetaMsg ∈ (romlParse tokens).errors) ∧
    (∀ tokens : List Token,
        (romlParse tokens).metaTagPresent = true →
        (romlParse tokens).primesDetected = false →
        declaresMetaMsg ∈ (romlParse tokens).errors) ∧
    romlDecode docNoMeta =
      { data := dataNoMeta, errors := [missingMetaMsg],
        metaTagPresent := false, primesDetected := true } ∧
    romlDecode docMetaNoPrimes =
      { data := dataMetaNoPrimes, errors := [declaresMetaMsg],
        metaTagPresent := true, primesDetected := false } := by
  refine ⟨?_, ?_, by decide, by decide⟩
  · intro tokens h1 h2
    rw [romlParse_primes, validatePrime_primesDetected] at h1
    rw [romlParse_meta, validatePrime_metaTagPresent] at h2
    rw [romlParse_errors]
    exact validatePrime_missing _ h1 h2
  · intro tokens h1 h2
    rw [romlParse_meta, validatePrime_metaTagPresent] at h1
    rw [romlParse_primes, validatePrime_primesDetected] at h2
    rw [romlParse_errors]
    exact validatePrime_declares _ h1 h2

theorem c6_prime_meta_consistency_witness :
    ((romlParse [tok0]).primesDetected = true ∧
     (romlParse [tok0]).metaTagPresent = false ∧
     missingMetaMsg ∈ (romlParse [tok0]).errors) ∧
    ((romlParse [tokMeta]).metaTagPresent = true ∧
     (romlParse [tokMeta]).primesDetected = false ∧
     declaresMetaMsg ∈ (romlParse [tokMeta]).errors) :=
  ⟨⟨by decide, by decide,
    c6_prime_meta_consistency.1 [tok0] (by decide) (by decide)⟩,
   ⟨by decide, by decide,
    c6_prime_meta_consistency.2.1 [tokMeta] (by decide) (by decide)⟩⟩
